import Mathlib

set_option maxRecDepth 8000

/-!
Verification of the amplify-storage-utils object-storage library.

This file gives a shallow embedding of the core of the repository:

* the key transformers (`PrefixStore`, `HashPrefixStore`, `UrlEncodingStore`
  from `src/storage/utils.py`, and `FilesystemKeyTransformer` from
  `src/storage/fs.py`), together with the Python standard-library
  functions they call (`str.encode('utf-8')`, `base64.b32encode/b32decode`,
  `hashlib.sha256`, `urllib.parse.quote/unquote`);
* the composable store combinators (`CachingStore`, `MirroringStore`,
  `KeyValidatingStore`, `NotifyingStore` from `src/storage/utils.py`),
  modelled over association-list child stores satisfying the store contract;
* the declarative builder (`StoreFactory` from `src/storage/config_builder.py`).

Python strings are modelled as lists of Unicode code points, bytes as lists
of naturals below 256, and Python exceptions as explicit error values.
-/

/-- A Python `str` is modelled as its sequence of Unicode code points. -/
abbrev PyStr := List Nat

/-- Embed a Lean string literal into the code-point model of Python `str`. -/
def pyStr (s : String) : PyStr := s.data.map Char.toNat

/-- A code point accepted by `str.encode('utf-8')`: a Unicode scalar value,
i.e. below `0x110000` and not a surrogate.  Python raises
`UnicodeEncodeError` on anything else. -/
def EncodableCp (c : Nat) : Prop := c < 0x110000 ∧ ¬(0xD800 ≤ c ∧ c ≤ 0xDFFF)

instance (c : Nat) : Decidable (EncodableCp c) := by
  unfold EncodableCp; infer_instance

/-- Every code point of the string is a Unicode scalar value (true of any
Python string that does not contain lone surrogates). -/
def ValidStr (s : PyStr) : Prop := ∀ c ∈ s, EncodableCp c

instance (s : PyStr) : Decidable (ValidStr s) := by
  unfold ValidStr; infer_instance

/-- UTF-8 encoding of one code point, following `str.encode('utf-8')`;
`none` where Python raises `UnicodeEncodeError` (surrogates, out of range). -/
def utf8EncodeChar (c : Nat) : Option (List Nat) :=
  if c < 0x80 then some [c]
  else if c < 0x800 then some [0xC0 + c / 64, 0x80 + c % 64]
  else if c < 0x10000 then
    if 0xD800 ≤ c ∧ c ≤ 0xDFFF then none
    else some [0xE0 + c / 4096, 0x80 + c / 64 % 64, 0x80 + c % 64]
  else if c < 0x110000 then
    some [0xF0 + c / 262144, 0x80 + c / 4096 % 64, 0x80 + c / 64 % 64, 0x80 + c % 64]
  else none

/-- `str.encode('utf-8')` on a whole string: the concatenation of the
per-code-point encodings. -/
def utf8Encode : PyStr → Option (List Nat)
  | [] => some []
  | c :: s =>
    match utf8EncodeChar c, utf8Encode s with
    | some bc, some bs => some (bc ++ bs)
    | _, _ => none

/-- Continuation of a two-byte UTF-8 sequence with lead byte `b`. -/
def utf8Cont2 (b : Nat) : List Nat → Option (Nat × List Nat)
  | b2 :: r =>
    if 0x80 ≤ b2 ∧ b2 < 0xC0 then some ((b - 0xC0) * 64 + (b2 - 0x80), r) else none
  | [] => none

/-- Continuation of a three-byte UTF-8 sequence with lead byte `b`;
rejects overlong forms and surrogates as Python's strict decoder does. -/
def utf8Cont3 (b : Nat) : List Nat → Option (Nat × List Nat)
  | b2 :: b3 :: r =>
    if (0x80 ≤ b2 ∧ b2 < 0xC0) ∧ (0x80 ≤ b3 ∧ b3 < 0xC0) then
      if (b - 0xE0) * 4096 + (b2 - 0x80) * 64 + (b3 - 0x80) < 0x800 ∨
          (0xD800 ≤ (b - 0xE0) * 4096 + (b2 - 0x80) * 64 + (b3 - 0x80) ∧
            (b - 0xE0) * 4096 + (b2 - 0x80) * 64 + (b3 - 0x80) ≤ 0xDFFF) then none
      else some ((b - 0xE0) * 4096 + (b2 - 0x80) * 64 + (b3 - 0x80), r)
    else none
  | _ => none

/-- Continuation of a four-byte UTF-8 sequence with lead byte `b`;
rejects overlong forms and values past `0x10FFFF`. -/
def utf8Cont4 (b : Nat) : List Nat → Option (Nat × List Nat)
  | b2 :: b3 :: b4 :: r =>
    if (0x80 ≤ b2 ∧ b2 < 0xC0) ∧ (0x80 ≤ b3 ∧ b3 < 0xC0) ∧ (0x80 ≤ b4 ∧ b4 < 0xC0) then
      if (b - 0xF0) * 262144 + (b2 - 0x80) * 4096 + (b3 - 0x80) * 64 + (b4 - 0x80) < 0x10000 ∨
          0x110000 ≤ (b - 0xF0) * 262144 + (b2 - 0x80) * 4096 + (b3 - 0x80) * 64 + (b4 - 0x80)
        then none
      else some ((b - 0xF0) * 262144 + (b2 - 0x80) * 4096 + (b3 - 0x80) * 64 + (b4 - 0x80), r)
    else none
  | _ => none

/-- Decode a single UTF-8 sequence from the front of a byte stream,
returning the code point and the remaining bytes; `none` on the malformed
shapes Python's strict `bytes.decode('utf-8')` rejects. -/
def utf8DecodeOne (b : Nat) (rest : List Nat) : Option (Nat × List Nat) :=
  if b < 0x80 then some (b, rest)
  else if b < 0xC2 then none
  else if b < 0xE0 then utf8Cont2 b rest
  else if b < 0xF0 then utf8Cont3 b rest
  else if b < 0xF5 then utf8Cont4 b rest
  else none

theorem utf8Cont2_le (b : Nat) (rest : List Nat) (c : Nat) (rest' : List Nat)
    (h : utf8Cont2 b rest = some (c, rest')) : rest'.length ≤ rest.length := by
  rcases rest with _ | ⟨b2, r⟩ <;> simp only [utf8Cont2] at h
  · cases h
  · split_ifs at h <;> cases h <;> simp

theorem utf8Cont3_le (b : Nat) (rest : List Nat) (c : Nat) (rest' : List Nat)
    (h : utf8Cont3 b rest = some (c, rest')) : rest'.length ≤ rest.length := by
  rcases rest with _ | ⟨b2, _ | ⟨b3, r⟩⟩ <;> simp only [utf8Cont3] at h
  · cases h
  · cases h
  · split_ifs at h <;> cases h <;> simp_arith

theorem utf8Cont4_le (b : Nat) (rest : List Nat) (c : Nat) (rest' : List Nat)
    (h : utf8Cont4 b rest = some (c, rest')) : rest'.length ≤ rest.length := by
  rcases rest with _ | ⟨b2, _ | ⟨b3, _ | ⟨b4, r⟩⟩⟩ <;> simp only [utf8Cont4] at h
  · cases h
  · cases h
  · cases h
  · split_ifs at h <;> cases h <;> simp_arith

theorem utf8DecodeOne_le (b : Nat) (rest : List Nat) (c : Nat) (rest' : List Nat)
    (h : utf8DecodeOne b rest = some (c, rest')) : rest'.length ≤ rest.length := by
  unfold utf8DecodeOne at h
  split_ifs at h
  · cases h; exact le_rfl
  · exact utf8Cont2_le b rest c rest' h
  · exact utf8Cont3_le b rest c rest' h
  · exact utf8Cont4_le b rest c rest' h

/-- Fuel-indexed strict UTF-8 decoder; the fuel only serves Lean's
termination checking and is irrelevant once at least `l.length`. -/
def utf8DecodeFuel : Nat → List Nat → Option (List Nat)
  | _, [] => some []
  | 0, _ :: _ => none
  | fuel + 1, b :: rest =>
    match utf8DecodeOne b rest with
    | none => none
    | some (c, rest') => (utf8DecodeFuel fuel rest').map (c :: ·)

/-- Strict UTF-8 decoding (`bytes.decode('utf-8')`): `none` where Python
raises `UnicodeDecodeError`. -/
def utf8Decode (l : List Nat) : Option (List Nat) := utf8DecodeFuel l.length l

theorem utf8DecodeFuel_congr (f₁ : Nat) :
    ∀ (f₂ : Nat) (l : List Nat), l.length ≤ f₁ → l.length ≤ f₂ →
      utf8DecodeFuel f₁ l = utf8DecodeFuel f₂ l := by
  induction f₁ with
  | zero =>
    intro f₂ l h₁ h₂
    cases l with
    | nil => cases f₂ <;> rfl
    | cons b rest => simp at h₁
  | succ n ih =>
    intro f₂ l h₁ h₂
    cases l with
    | nil => cases f₂ <;> rfl
    | cons b rest =>
      cases f₂ with
      | zero => simp at h₂
      | succ m =>
        simp only [List.length_cons] at h₁ h₂
        simp only [utf8DecodeFuel]
        cases h : utf8DecodeOne b rest with
        | none => rfl
        | some p =>
          obtain ⟨c, rest'⟩ := p
          dsimp only
          have hle : rest'.length ≤ rest.length := utf8DecodeOne_le b rest c rest' h
          rw [ih m rest' (by omega) (by omega)]

theorem utf8Decode_nil : utf8Decode [] = some [] := rfl

theorem utf8Decode_cons (b : Nat) (rest : List Nat) :
    utf8Decode (b :: rest) =
      match utf8DecodeOne b rest with
      | none => none
      | some (c, rest') => (utf8Decode rest').map (c :: ·) := by
  show utf8DecodeFuel (rest.length + 1) (b :: rest) = _
  simp only [utf8DecodeFuel]
  cases h : utf8DecodeOne b rest with
  | none => rfl
  | some p =>
    obtain ⟨c, rest'⟩ := p
    dsimp only
    rw [utf8DecodeFuel_congr rest.length rest'.length rest'
      (utf8DecodeOne_le b rest c rest' h) le_rfl]
    rfl

theorem utf8EncodeChar_isSome (c : Nat) (h : EncodableCp c) :
    ∃ bs, utf8EncodeChar c = some bs := by
  obtain ⟨h1, h2⟩ := h
  unfold utf8EncodeChar
  split_ifs <;> first | exact ⟨_, rfl⟩ | tauto | omega

theorem utf8EncodeChar_ne_nil (c : Nat) (bs : List Nat) (h : utf8EncodeChar c = some bs) :
    bs ≠ [] := by
  unfold utf8EncodeChar at h
  split_ifs at h <;> cases h <;> simp

theorem utf8EncodeChar_lt (c : Nat) (bs : List Nat) (h : utf8EncodeChar c = some bs) :
    ∀ b ∈ bs, b < 256 := by
  unfold utf8EncodeChar at h
  split_ifs at h with g1 g2 g3 g4 g5 <;> cases h <;> intro b hb <;> simp_all <;> omega

/-- Decoding consumes exactly one encoded code point from the front of the
stream and returns it unchanged. -/
theorem utf8DecodeOne_encode (c : Nat) (bs : List Nat) (h : utf8EncodeChar c = some bs)
    (rest : List Nat) (b0 : Nat) (btl : List Nat) (hbs : bs = b0 :: btl) :
    utf8DecodeOne b0 (btl ++ rest) = some (c, rest) := by
  unfold utf8EncodeChar at h
  split_ifs at h with g1 g2 g3 g4 g5 <;> cases h <;> cases hbs <;> unfold utf8DecodeOne
  · rw [if_pos g1]
    simp
  · rw [if_neg (by omega), if_neg (by omega), if_pos (by omega)]
    simp only [List.cons_append, List.nil_append, utf8Cont2]
    rw [if_pos (by constructor <;> omega)]
    have hc : (0xC0 + c / 64 - 0xC0) * 64 + (0x80 + c % 64 - 0x80) = c := by omega
    rw [hc]
  · rw [if_neg (by omega), if_neg (by omega), if_neg (by omega), if_pos (by omega)]
    simp only [List.cons_append, List.nil_append, utf8Cont3]
    rw [if_pos (by refine ⟨⟨?_, ?_⟩, ?_, ?_⟩ <;> omega)]
    have hm : (0xE0 + c / 4096 - 0xE0) * 4096 + (0x80 + c / 64 % 64 - 0x80) * 64 +
        (0x80 + c % 64 - 0x80) = c := by omega
    rw [hm]
    rw [if_neg (by push_neg; exact ⟨by omega, fun h1 => by omega⟩)]
  · rw [if_neg (by omega), if_neg (by omega), if_neg (by omega), if_neg (by omega),
      if_pos (by omega)]
    simp only [List.cons_append, List.nil_append, utf8Cont4]
    rw [if_pos (by refine ⟨⟨?_, ?_⟩, ⟨?_, ?_⟩, ?_, ?_⟩ <;> omega)]
    have hm : (0xF0 + c / 262144 - 0xF0) * 262144 + (0x80 + c / 4096 % 64 - 0x80) * 4096 +
        (0x80 + c / 64 % 64 - 0x80) * 64 + (0x80 + c % 64 - 0x80) = c := by omega
    rw [hm]
    rw [if_neg (by push_neg; exact ⟨by omega, by omega⟩)]

/-- UTF-8 decoding is a left inverse of UTF-8 encoding: whenever
`str.encode('utf-8')` succeeds, `bytes.decode('utf-8')` recovers the string. -/
theorem utf8Decode_utf8Encode (s : PyStr) (bs : List Nat) (h : utf8Encode s = some bs) :
    utf8Decode bs = some s := by
  induction s generalizing bs with
  | nil => cases h; rfl
  | cons c t ih =>
    cases hc : utf8EncodeChar c with
    | none => simp only [utf8Encode, hc] at h; cases h
    | some bc =>
      cases ht : utf8Encode t with
      | none => simp only [utf8Encode, hc, ht] at h; cases h
      | some bt =>
        simp only [utf8Encode, hc, ht] at h
        cases h
        cases hbc : bc with
        | nil => exact absurd hbc (utf8EncodeChar_ne_nil c bc hc)
        | cons b0 btl =>
          subst hbc
          simp only [List.cons_append]
          rw [utf8Decode_cons, utf8DecodeOne_encode c _ hc bt b0 btl rfl]
          dsimp only
          rw [ih bt ht]
          rfl

theorem utf8Encode_isSome (s : PyStr) (h : ValidStr s) :
    ∃ bs, utf8Encode s = some bs := by
  induction s with
  | nil => exact ⟨[], rfl⟩
  | cons c t ih =>
    obtain ⟨bc, hc⟩ := utf8EncodeChar_isSome c (h c (by simp))
    obtain ⟨bt, ht⟩ := ih (fun x hx => h x (by simp [hx]))
    exact ⟨bc ++ bt, by simp only [utf8Encode, hc, ht]⟩

theorem utf8Encode_lt (s : PyStr) (bs : List Nat) (h : utf8Encode s = some bs) :
    ∀ b ∈ bs, b < 256 := by
  induction s generalizing bs with
  | nil => cases h; simp
  | cons c t ih =>
    cases hc : utf8EncodeChar c with
    | none => simp only [utf8Encode, hc] at h; cases h
    | some bc =>
      cases ht : utf8Encode t with
      | none => simp only [utf8Encode, hc, ht] at h; cases h
      | some bt =>
        simp only [utf8Encode, hc, ht] at h
        cases h
        intro b hb
        rcases List.mem_append.mp hb with hb | hb
        · exact utf8EncodeChar_lt c bc hc b hb
        · exact ih bt ht b hb

theorem utf8Encode_ne_nil (s : PyStr) (bs : List Nat) (h : utf8Encode s = some bs)
    (hs : s ≠ []) : bs ≠ [] := by
  cases s with
  | nil => exact absurd rfl hs
  | cons c t =>
    cases hc : utf8EncodeChar c with
    | none => simp only [utf8Encode, hc] at h; cases h
    | some bc =>
      cases ht : utf8Encode t with
      | none => simp only [utf8Encode, hc, ht] at h; cases h
      | some bt =>
        simp only [utf8Encode, hc, ht] at h
        cases h
        have := utf8EncodeChar_ne_nil c bc hc
        intro hcontra
        exact this (List.append_eq_nil.mp hcontra).1

/-! ## Base32 (`base64.b32encode` / `base64.b32decode`)

Bytes are modelled as naturals below 256 and characters by their ASCII
codes (`'='` is 61).  The encoder is expressed as the 5-bit chunking of the
big-endian bit stream of the input, zero-padded, mapped through the RFC
4648 alphabet and then `'='`-padded to a multiple of eight characters;
this agrees with CPython's implementation, which zero-pads the input to a
multiple of five bytes and replaces the corresponding tail characters by
`'='`.  The decoder follows CPython's `_b32decode` step by step. -/

/-- Numeric value of one bit. -/
def bitVal (b : Bool) : Nat := if b then 1 else 0

/-- Big-endian value of a bit string. -/
def bitsVal : List Bool → Nat
  | [] => 0
  | b :: rest => bitVal b * 2 ^ rest.length + bitsVal rest

/-- The eight bits of a byte, most significant first. -/
def byteBits (b : Nat) : List Bool :=
  [decide (b / 128 % 2 = 1), decide (b / 64 % 2 = 1), decide (b / 32 % 2 = 1),
   decide (b / 16 % 2 = 1), decide (b / 8 % 2 = 1), decide (b / 4 % 2 = 1),
   decide (b / 2 % 2 = 1), decide (b % 2 = 1)]

/-- The big-endian bit stream of a byte string. -/
def bytesToBits (bs : List Nat) : List Bool := (bs.map byteBits).flatten

/-- The five bits of a 5-bit group value, most significant first. -/
def val5Bits (v : Nat) : List Bool :=
  [decide (v / 16 % 2 = 1), decide (v / 8 % 2 = 1), decide (v / 4 % 2 = 1),
   decide (v / 2 % 2 = 1), decide (v % 2 = 1)]

/-- Split a bit stream into 5-bit group values, zero-padding the last group. -/
def group5 : List Bool → List Nat
  | [] => []
  | b1 :: b2 :: b3 :: b4 :: b5 :: rest => bitsVal [b1, b2, b3, b4, b5] :: group5 rest
  | l => [bitsVal (l ++ List.replicate (5 - l.length) false)]

/-- Reassemble bytes from a bit stream whose length is a multiple of eight. -/
def group8 : List Bool → List Nat
  | b1 :: b2 :: b3 :: b4 :: b5 :: b6 :: b7 :: b8 :: rest =>
    bitsVal [b1, b2, b3, b4, b5, b6, b7, b8] :: group8 rest
  | _ => []

/-- The RFC 4648 base32 alphabet `A`–`Z`, `2`–`7`, as ASCII codes. -/
def b32Char (v : Nat) : Nat := if v < 26 then 65 + v else 50 + (v - 26)

/-- Inverse alphabet lookup (CPython's `b32rev`); `none` off the alphabet. -/
def b32Rev (c : Nat) : Option Nat :=
  if 65 ≤ c ∧ c ≤ 90 then some (c - 65)
  else if 50 ≤ c ∧ c ≤ 55 then some (26 + (c - 50))
  else none

/-- `Option`-valued map (the explicit loop CPython uses when translating
characters, failing on the first bad one). -/
def mapOpt (f : α → Option β) : List α → Option (List β)
  | [] => some []
  | a :: l =>
    match f a, mapOpt f l with
    | some b, some bl => some (b :: bl)
    | _, _ => none

/-- Python's `str.rstrip`/`bytes.rstrip` with a character predicate. -/
def pyRstrip (p : Nat → Bool) (s : List Nat) : List Nat :=
  (s.reverse.dropWhile p).reverse

/-- `base64.b32encode`, producing ASCII codes. -/
def b32encode (bs : List Nat) : List Nat :=
  (group5 (bytesToBits bs)).map b32Char ++
    List.replicate ((8 - ((group5 (bytesToBits bs)).map b32Char).length % 8) % 8) 61

/-- `base64.b32decode` (strict, no case folding), following CPython:
reject lengths not a multiple of eight, strip trailing `'='`, translate
through the inverse alphabet (failing on foreign characters), check the
pad count is one of `{0, 1, 3, 4, 6}`, and keep `5·len(data) / 8` bytes
of the 5-bit group stream. -/
def b32decodeBody (data : List Nat) (padchars : Nat) : Option (List Nat) :=
  match mapOpt b32Rev data with
  | none => none
  | some vals =>
    if padchars = 0 ∨ padchars = 1 ∨ padchars = 3 ∨ padchars = 4 ∨ padchars = 6 then
      some (group8 (((vals.map val5Bits).flatten).take (8 * (5 * data.length / 8))))
    else none

def b32decode (s : List Nat) : Option (List Nat) :=
  if s.length % 8 ≠ 0 then none
  else b32decodeBody (pyRstrip (· == 61) s) (s.length - (pyRstrip (· == 61) s).length)

theorem bitVal_decide_mod_two (x : Nat) : bitVal (decide (x % 2 = 1)) = x % 2 := by
  rcases Nat.mod_two_eq_zero_or_one x with h | h <;> simp [bitVal, h]

theorem bitsVal_byteBits (b : Nat) (h : b < 256) : bitsVal (byteBits b) = b := by
  simp only [byteBits, bitsVal, List.length_cons, List.length_nil, bitVal_decide_mod_two]
  have e1 : b / 128 % 2 = b / 128 := by omega
  omega

theorem bitsVal_lt (l : List Bool) : bitsVal l < 2 ^ l.length := by
  induction l with
  | nil => simp [bitsVal]
  | cons b rest ih =>
    simp only [bitsVal, List.length_cons, pow_succ]
    rcases b <;> simp [bitVal] <;> omega

theorem val5Bits_bitsVal (l : List Bool) (h : l.length = 5) : val5Bits (bitsVal l) = l := by
  rcases l with _ | ⟨a, _ | ⟨b, _ | ⟨c, _ | ⟨d, _ | ⟨e, _ | ⟨f, r⟩⟩⟩⟩⟩⟩ <;> simp at h
  rcases a <;> rcases b <;> rcases c <;> rcases d <;> rcases e <;> rfl

theorem b32Rev_b32Char (v : Nat) (h : v < 32) : b32Rev (b32Char v) = some v := by
  unfold b32Char b32Rev
  split_ifs <;> first | (congr 1; omega) | omega

/-- Alphabet characters are ASCII uppercase letters or the digits 2–7. -/
theorem b32Char_range (v : Nat) (h : v < 32) :
    (65 ≤ b32Char v ∧ b32Char v ≤ 90) ∨ (50 ≤ b32Char v ∧ b32Char v ≤ 55) := by
  unfold b32Char
  split_ifs <;> omega

theorem group5_spec (n : Nat) : ∀ bits : List Bool, bits.length ≤ n →
    ((group5 bits).map val5Bits).flatten =
        bits ++ List.replicate ((5 - bits.length % 5) % 5) false ∧
      (group5 bits).length = (bits.length + 4) / 5 ∧
      (∀ v ∈ group5 bits, v < 32) := by
  induction n with
  | zero =>
    intro bits hb
    have : bits = [] := List.length_eq_zero.mp (Nat.le_zero.mp hb)
    subst this
    refine ⟨rfl, rfl, by simp [group5]⟩
  | succ n ih =>
    intro bits hb
    rcases bits with _ | ⟨b1, _ | ⟨b2, _ | ⟨b3, _ | ⟨b4, _ | ⟨b5, rest⟩⟩⟩⟩⟩
    · exact ⟨rfl, rfl, by simp [group5]⟩
    · refine ⟨?_, by simp [group5], ?_⟩
      · simp only [group5, List.map_cons, List.map_nil, List.flatten]
        rw [val5Bits_bitsVal _ (by simp)]
        simp
      · intro v hv
        simp only [group5, List.mem_singleton] at hv
        subst hv
        exact lt_of_lt_of_le (bitsVal_lt _) (by simp)
    · refine ⟨?_, by simp [group5], ?_⟩
      · simp only [group5, List.map_cons, List.map_nil, List.flatten]
        rw [val5Bits_bitsVal _ (by simp)]
        simp
      · intro v hv
        simp only [group5, List.mem_singleton] at hv
        subst hv
        exact lt_of_lt_of_le (bitsVal_lt _) (by simp)
    · refine ⟨?_, by simp [group5], ?_⟩
      · simp only [group5, List.map_cons, List.map_nil, List.flatten]
        rw [val5Bits_bitsVal _ (by simp)]
        simp
      · intro v hv
        simp only [group5, List.mem_singleton] at hv
        subst hv
        exact lt_of_lt_of_le (bitsVal_lt _) (by simp)
    · refine ⟨?_, by simp [group5], ?_⟩
      · simp only [group5, List.map_cons, List.map_nil, List.flatten]
        rw [val5Bits_bitsVal _ (by simp)]
        simp
      · intro v hv
        simp only [group5, List.mem_singleton] at hv
        subst hv
        exact lt_of_lt_of_le (bitsVal_lt _) (by simp)
    · have hr : rest.length ≤ n := by
        simp only [List.length_cons] at hb; omega
      obtain ⟨ih1, ih2, ih3⟩ := ih rest hr
      refine ⟨?_, ?_, ?_⟩
      · simp only [group5, List.map_cons, List.flatten_cons]
        rw [val5Bits_bitsVal _ (by simp), ih1]
        have hz : (5 - (b1 :: b2 :: b3 :: b4 :: b5 :: rest).length % 5) % 5 =
            (5 - rest.length % 5) % 5 := by
          simp only [List.length_cons]; omega
        rw [hz]
        simp
      · simp only [group5, List.length_cons, ih2]
        omega
      · intro v hv
        simp only [group5, List.mem_cons] at hv
        rcases hv with hv | hv
        · subst hv
          exact lt_of_lt_of_le (bitsVal_lt _) (by simp)
        · exact ih3 v hv

theorem group5_flatten (bits : List Bool) :
    ((group5 bits).map val5Bits).flatten =
      bits ++ List.replicate ((5 - bits.length % 5) % 5) false :=
  (group5_spec bits.length bits le_rfl).1

theorem group5_length (bits : List Bool) :
    (group5 bits).length = (bits.length + 4) / 5 :=
  (group5_spec bits.length bits le_rfl).2.1

theorem group5_lt (bits : List Bool) : ∀ v ∈ group5 bits, v < 32 :=
  (group5_spec bits.length bits le_rfl).2.2

theorem dropWhile_append_of_all {α : Type} (p : α → Bool) (a b : List α)
    (h : ∀ x ∈ a, p x = true) : (a ++ b).dropWhile p = b.dropWhile p := by
  induction a with
  | nil => rfl
  | cons x a ih =>
    simp only [List.cons_append, List.dropWhile_cons, h x (by simp)]
    exact ih (fun y hy => h y (by simp [hy]))

theorem dropWhile_eq_self_of_all {α : Type} (p : α → Bool) (l : List α)
    (h : ∀ x ∈ l, p x = false) : l.dropWhile p = l := by
  cases l with
  | nil => rfl
  | cons x t => simp [List.dropWhile_cons, h x (by simp)]

/-- `rstrip` removes exactly an all-stripped suffix appended to a list none
of whose characters are stripped. -/
theorem pyRstrip_append_all (p : Nat → Bool) (l t : List Nat)
    (ht : ∀ x ∈ t, p x = true) (hl : ∀ x ∈ l, p x = false) :
    pyRstrip p (l ++ t) = l := by
  unfold pyRstrip
  rw [List.reverse_append,
    dropWhile_append_of_all p t.reverse l.reverse (fun x hx => ht x (List.mem_reverse.mp hx)),
    dropWhile_eq_self_of_all p l.reverse (fun x hx => hl x (List.mem_reverse.mp hx)),
    List.reverse_reverse]

theorem pyRstrip_all_false (p : Nat → Bool) (l : List Nat)
    (hl : ∀ x ∈ l, p x = false) : pyRstrip p l = l := by
  have := pyRstrip_append_all p l [] (by simp) hl
  simpa using this

theorem mapOpt_map_some {α β : Type} (f : α → Option β) (g : β → α) (l : List β)
    (h : ∀ x ∈ l, f (g x) = some x) : mapOpt f (l.map g) = some l := by
  induction l with
  | nil => rfl
  | cons x t ih =>
    simp only [List.map_cons, mapOpt, h x (by simp),
      ih (fun y hy => h y (by simp [hy]))]

theorem bytesToBits_length (bs : List Nat) : (bytesToBits bs).length = 8 * bs.length := by
  induction bs with
  | nil => rfl
  | cons b t ih =>
    simp only [bytesToBits, List.map_cons, List.flatten_cons, List.length_append,
      List.length_cons]
    simp only [bytesToBits] at ih
    rw [ih]
    simp [byteBits]
    omega

theorem group8_byteBits (b : Nat) (hb : b < 256) (rest : List Bool) :
    group8 (byteBits b ++ rest) = b :: group8 rest := by
  have h := bitsVal_byteBits b hb
  simp only [byteBits] at h ⊢
  simp only [List.cons_append, List.nil_append, group8, h]
  rfl

theorem group8_bytesToBits (bs : List Nat) (h : ∀ b ∈ bs, b < 256) :
    group8 (bytesToBits bs) = bs := by
  induction bs with
  | nil => rfl
  | cons b t ih =>
    simp only [bytesToBits, List.map_cons, List.flatten_cons]
    rw [group8_byteBits b (h b (by simp)) _]
    simp only [bytesToBits] at ih
    rw [ih (fun x hx => h x (by simp [hx]))]

/-- Base32 round trip: `b32decode(b32encode(bs)) == bs` for every byte
string `bs`. -/
theorem b32decode_b32encode (bs : List Nat) (h : ∀ b ∈ bs, b < 256) :
    b32decode (b32encode bs) = some bs := by
  have hflat := group5_flatten (bytesToBits bs)
  have hlen := group5_length (bytesToBits bs)
  have hlt := group5_lt (bytesToBits bs)
  have hbl : (bytesToBits bs).length = 8 * bs.length := bytesToBits_length bs
  have hne : ∀ c ∈ (group5 (bytesToBits bs)).map b32Char, (c == 61) = false := by
    intro c hc
    obtain ⟨v, hv, rfl⟩ := List.mem_map.mp hc
    rcases b32Char_range v (hlt v hv) with ⟨h1, h2⟩ | ⟨h1, h2⟩ <;> simp <;> omega
  have hcl : ((group5 (bytesToBits bs)).map b32Char).length = (8 * bs.length + 4) / 5 := by
    rw [List.length_map, hlen, hbl]
  unfold b32encode b32decode
  rw [if_neg ?hmod]
  case hmod =>
    push_neg
    simp only [List.length_append, List.length_replicate]
    omega
  rw [pyRstrip_append_all _ _ _ (by intro x hx; simpa using List.eq_of_mem_replicate hx) hne]
  unfold b32decodeBody
  rw [mapOpt_map_some b32Rev b32Char _ (fun v hv => b32Rev_b32Char v (hlt v hv))]
  dsimp only
  rw [if_pos ?hpad]
  case hpad =>
    simp only [List.length_append, List.length_replicate, hcl]
    omega
  rw [hflat]
  have htake : 8 * (5 * ((group5 (bytesToBits bs)).map b32Char).length / 8) =
      (bytesToBits bs).length := by
    rw [hcl, hbl]
    omega
  rw [htake, List.take_left, group8_bytesToBits bs h]

/-! ## `FilesystemKeyTransformer` (src/storage/fs.py)

ASCII codes used below: `'='` 61, `'_'` 95, `'.'` 46, `' '` 32. -/

/-- The Windows reserved filenames from `FilesystemKeyTransformer.WINDOWS_RESERVED`:
`CON`, `PRN`, `AUX`, `NUL`, `COM1`–`COM9`, `LPT1`–`LPT9`. -/
def WINDOWS_RESERVED : List PyStr :=
  [pyStr "CON", pyStr "PRN", pyStr "AUX", pyStr "NUL",
   pyStr "COM1", pyStr "COM2", pyStr "COM3", pyStr "COM4", pyStr "COM5",
   pyStr "COM6", pyStr "COM7", pyStr "COM8", pyStr "COM9",
   pyStr "LPT1", pyStr "LPT2", pyStr "LPT3", pyStr "LPT4", pyStr "LPT5",
   pyStr "LPT6", pyStr "LPT7", pyStr "LPT8", pyStr "LPT9"]

/-- `str.upper()` on one character, restricted to the ASCII range (the only
characters reaching it in this pipeline are the base32 alphabet and `'_'`). -/
def pyUpperChar (c : Nat) : Nat := if 97 ≤ c ∧ c ≤ 122 then c - 32 else c

/-- `encoded + "_" * ((8 - len(encoded) % 8) % 8)` (fs.py line 108). -/
def fsPad (e : List Nat) : List Nat := e ++ List.replicate ((8 - e.length % 8) % 8) 95

/-- `if encoded.startswith("."): encoded = "_" + encoded` (fs.py lines 111-112). -/
def fsDotGuard (e : List Nat) : List Nat := if e.head? = some 46 then 95 :: e else e

/-- `if not encoded: encoded = "_"` (fs.py lines 115-116 and 120-121). -/
def fsEmptyGuard (e : List Nat) : List Nat := if e = [] then [95] else e

/-- `encoded.rstrip(" .")` (fs.py line 119). -/
def fsStripDotSpace (e : List Nat) : List Nat := pyRstrip (fun c => c == 32 || c == 46) e

/-- `encoded.upper().rstrip("_")` (fs.py line 124). -/
def fsBare (e : List Nat) : PyStr := pyRstrip (· == 95) (e.map pyUpperChar)

/-- `if bare in WINDOWS_RESERVED: encoded = "_" + encoded` (fs.py lines 125-126). -/
def fsReservedGuard (e : List Nat) : List Nat :=
  if fsBare e ∈ WINDOWS_RESERVED then 95 :: e else e

/-- `FilesystemKeyTransformer.transform_key`: UTF-8 encode, base32 encode,
replace `'='` padding by trailing underscores, then apply the leading-dot,
emptiness, trailing-dot/space and Windows-reserved-name guards.  `none`
where the UTF-8 encode raises. -/
def fsTransformKey (key : PyStr) : Option PyStr :=
  (utf8Encode key).map (fun b =>
    fsReservedGuard (fsEmptyGuard (fsStripDotSpace (fsEmptyGuard (fsDotGuard
      (fsPad (pyRstrip (· == 61) (b32encode b))))))))

/-- The first step of `FilesystemKeyTransformer.reverse_transform_key`
(fs.py lines 135-139): undo the artificial `'_'` put in front of a
Windows-reserved name. -/
def fsStripLeadGuard (filename : PyStr) : PyStr :=
  if filename.head? = some 95 then
    if fsBare filename.tail ∈ WINDOWS_RESERVED then filename.tail else filename
  else filename

/-- `FilesystemKeyTransformer.reverse_transform_key`: undo the reserved-name
guard, turn the trailing underscores captured by `re.match(r"(.*?)(_*)$", …)`
back into `'='` padding, base32 decode and UTF-8 decode.  `none` where
Python raises (`binascii.Error` or `UnicodeDecodeError`). -/
def fsReverseTransformKey (filename : PyStr) : Option PyStr :=
  (b32decode (pyRstrip (· == 95) (fsStripLeadGuard filename) ++
      List.replicate ((fsStripLeadGuard filename).length -
        (pyRstrip (· == 95) (fsStripLeadGuard filename)).length) 61)).bind
    utf8Decode

theorem map_eq_self_of {α : Type} (f : α → α) (l : List α) (h : ∀ c ∈ l, f c = c) :
    l.map f = l := by
  induction l with
  | nil => rfl
  | cons x t ih => simp [h x (by simp), ih (fun y hy => h y (by simp [hy]))]

/-- The base32 character part of `b32encode` (before `'='` padding). -/
def b32chars (b : List Nat) : List Nat := (group5 (bytesToBits b)).map b32Char

theorem b32encode_eq (b : List Nat) :
    b32encode b = b32chars b ++ List.replicate ((8 - (b32chars b).length % 8) % 8) 61 := rfl

theorem b32chars_range (b : List Nat) :
    ∀ c ∈ b32chars b, (65 ≤ c ∧ c ≤ 90) ∨ (50 ≤ c ∧ c ≤ 55) := by
  intro c hc
  obtain ⟨v, hv, rfl⟩ := List.mem_map.mp hc
  exact b32Char_range v (group5_lt (bytesToBits b) v hv)

/-- The filesystem-safe key transformer round-trips every non-empty
encodable key. -/
theorem fsTransform_roundtrip (key : PyStr) (hne : key ≠ []) (hvalid : ValidStr key) :
    ∃ fn, fsTransformKey key = some fn ∧ fsReverseTransformKey fn = some key := by
  obtain ⟨b, hb⟩ := utf8Encode_isSome key hvalid
  have hblt := utf8Encode_lt key b hb
  have hbne := utf8Encode_ne_nil key b hb hne
  have hrange := b32chars_range b
  have hchlen : (b32chars b).length = ((bytesToBits b).length + 4) / 5 := by
    rw [b32chars, List.length_map, group5_length]
  have hbits : (bytesToBits b).length = 8 * b.length := bytesToBits_length b
  have hchpos : 0 < (b32chars b).length := by
    have h1 : 0 < b.length := List.length_pos.mpr hbne
    rw [hchlen, hbits]
    omega
  obtain ⟨c0, ct, hct⟩ := List.exists_cons_of_ne_nil (List.ne_nil_of_length_pos hchpos)
  have hc0 : (65 ≤ c0 ∧ c0 ≤ 90) ∨ (50 ≤ c0 ∧ c0 ≤ 55) :=
    hrange c0 (by rw [hct]; simp)
  -- step 1: stripping the '=' padding recovers the data characters
  have h1 : pyRstrip (· == 61) (b32encode b) = b32chars b := by
    rw [b32encode_eq]
    refine pyRstrip_append_all _ _ _ ?_ ?_
    · intro x hx
      have := List.eq_of_mem_replicate hx
      subst this
      rfl
    · intro x hx
      rcases hrange x hx with ⟨g1, g2⟩ | ⟨g1, g2⟩ <;> simp <;> omega
  -- the decorated name
  have hE1ne : b32chars b ++ List.replicate ((8 - (b32chars b).length % 8) % 8) 95 ≠ [] := by
    rw [hct]
    simp
  have hE1head : (b32chars b ++
      List.replicate ((8 - (b32chars b).length % 8) % 8) 95).head? = some c0 := by
    rw [hct]
    simp
  have h3 : fsDotGuard (b32chars b ++ List.replicate ((8 - (b32chars b).length % 8) % 8) 95) =
      b32chars b ++ List.replicate ((8 - (b32chars b).length % 8) % 8) 95 := by
    unfold fsDotGuard
    rw [hE1head, if_neg (by simp; omega)]
  have h4 : ∀ l : List Nat, l ≠ [] → fsEmptyGuard l = l := by
    intro l hl
    unfold fsEmptyGuard
    rw [if_neg hl]
  have h5 : fsStripDotSpace (b32chars b ++
      List.replicate ((8 - (b32chars b).length % 8) % 8) 95) =
      b32chars b ++ List.replicate ((8 - (b32chars b).length % 8) % 8) 95 := by
    refine pyRstrip_all_false _ _ ?_
    intro x hx
    rcases List.mem_append.mp hx with hx | hx
    · rcases hrange x hx with ⟨g1, g2⟩ | ⟨g1, g2⟩ <;> simp <;> omega
    · have := List.eq_of_mem_replicate hx
      subst this
      rfl
  have h7 : fsBare (b32chars b ++ List.replicate ((8 - (b32chars b).length % 8) % 8) 95) =
      b32chars b := by
    unfold fsBare
    rw [List.map_append, map_eq_self_of _ _ (by
      intro c hc
      unfold pyUpperChar
      rcases hrange c hc with ⟨g1, g2⟩ | ⟨g1, g2⟩ <;> rw [if_neg (by omega)])]
    rw [List.map_replicate]
    have h95 : pyUpperChar 95 = 95 := rfl
    rw [h95]
    refine pyRstrip_append_all _ _ _ ?_ ?_
    · intro x hx
      have := List.eq_of_mem_replicate hx
      subst this
      rfl
    · intro x hx
      rcases hrange x hx with ⟨g1, g2⟩ | ⟨g1, g2⟩ <;> simp <;> omega
  -- the reverse direction, common to both guard cases
  have hrev : ∀ fn : PyStr,
      fsStripLeadGuard fn =
        b32chars b ++ List.replicate ((8 - (b32chars b).length % 8) % 8) 95 →
      fsReverseTransformKey fn = some key := by
    intro fn hguard
    unfold fsReverseTransformKey
    rw [hguard]
    have hstrip : pyRstrip (· == 95)
        (b32chars b ++ List.replicate ((8 - (b32chars b).length % 8) % 8) 95) =
        b32chars b := by
      refine pyRstrip_append_all _ _ _ ?_ ?_
      · intro x hx
        have := List.eq_of_mem_replicate hx
        subst this
        rfl
      · intro x hx
        rcases hrange x hx with ⟨g1, g2⟩ | ⟨g1, g2⟩ <;> simp <;> omega
    rw [hstrip]
    have hcount : (b32chars b ++
          List.replicate ((8 - (b32chars b).length % 8) % 8) 95).length -
        (b32chars b).length = (8 - (b32chars b).length % 8) % 8 := by
      simp
    rw [hcount, ← b32encode_eq, b32decode_b32encode b hblt]
    simpa using utf8Decode_utf8Encode key b hb
  -- forward direction
  have htrans : fsTransformKey key = some (fsReservedGuard
      (b32chars b ++ List.replicate ((8 - (b32chars b).length % 8) % 8) 95)) := by
    unfold fsTransformKey
    rw [hb]
    simp only [Option.map_some']
    rw [h1]
    show some (fsReservedGuard (fsEmptyGuard (fsStripDotSpace (fsEmptyGuard (fsDotGuard
      (b32chars b ++ List.replicate ((8 - (b32chars b).length % 8) % 8) 95)))))) = _
    rw [h3, h4 _ hE1ne, h5, h4 _ hE1ne]
  by_cases hres : b32chars b ∈ WINDOWS_RESERVED
  · -- reserved: a '_' is put in front and taken off again on reverse
    refine ⟨95 :: (b32chars b ++ List.replicate ((8 - (b32chars b).length % 8) % 8) 95),
      ?_, ?_⟩
    · rw [htrans]
      unfold fsReservedGuard
      rw [h7, if_pos hres]
    · refine hrev _ ?_
      unfold fsStripLeadGuard
      rw [if_pos (by simp), List.tail_cons, h7, if_pos hres]
  · refine ⟨b32chars b ++ List.replicate ((8 - (b32chars b).length % 8) % 8) 95, ?_, ?_⟩
    · rw [htrans]
      unfold fsReservedGuard
      rw [h7, if_neg hres]
    · refine hrev _ ?_
      unfold fsStripLeadGuard
      rw [hE1head, if_neg (by simp; omega)]

/-! ## `hashlib.sha256` and the prefix key transformers -/

/-- Truncate to a 32-bit word. -/
def w32 (x : Nat) : Nat := x % 4294967296

/-- Right rotation of a 32-bit word. -/
def shaRotr (n x : Nat) : Nat := w32 (x / 2 ^ n + x % 2 ^ n * 2 ^ (32 - n))

/-- Logical right shift. -/
def shaShr (n x : Nat) : Nat := x / 2 ^ n

/-- Bitwise complement of a 32-bit word. -/
def shaNot (x : Nat) : Nat := 4294967295 - x

def shaCh (x y z : Nat) : Nat := (x &&& y) ^^^ (shaNot x &&& z)

def shaMaj (x y z : Nat) : Nat := (x &&& y) ^^^ (x &&& z) ^^^ (y &&& z)

def shaBsig0 (x : Nat) : Nat := shaRotr 2 x ^^^ shaRotr 13 x ^^^ shaRotr 22 x

def shaBsig1 (x : Nat) : Nat := shaRotr 6 x ^^^ shaRotr 11 x ^^^ shaRotr 25 x

def shaSsig0 (x : Nat) : Nat := shaRotr 7 x ^^^ shaRotr 18 x ^^^ shaShr 3 x

def shaSsig1 (x : Nat) : Nat := shaRotr 17 x ^^^ shaRotr 19 x ^^^ shaShr 10 x

/-- The SHA-256 round constants (in decimal). -/
def sha256K : List Nat :=
  [1116352408, 1899447441, 3049323471, 3921009573, 961987163, 1508970993,
   2453635748, 2870763221, 3624381080, 310598401, 607225278, 1426881987,
   1925078388, 2162078206, 2614888103, 3248222580, 3835390401, 4022224774,
   264347078, 604807628, 770255983, 1249150122, 1555081692, 1996064986,
   2554220882, 2821834349, 2952996808, 3210313671, 3336571891, 3584528711,
   113926993, 338241895, 666307205, 773529912, 1294757372, 1396182291,
   1695183700, 1986661051, 2177026350, 2456956037, 2730485921, 2820302411,
   3259730800, 3345764771, 3516065817, 3600352804, 4094571909, 275423344,
   430227734, 506948616, 659060556, 883997877, 958139571, 1322822218,
   1537002063, 1747873779, 1955562222, 2024104815, 2227730452, 2361852424,
   2428436474, 2756734187, 3204031479, 3329325298]

/-- The SHA-256 working state: eight 32-bit words. -/
structure Sha256State where
  sa : Nat
  sb : Nat
  sc : Nat
  sd : Nat
  se : Nat
  sf : Nat
  sg : Nat
  sh : Nat

/-- The SHA-256 initial hash value (in decimal). -/
def sha256Init : Sha256State :=
  ⟨1779033703, 3144134277, 1013904242, 2773480762, 1359893119, 2600822924,
   528734635, 1541459225⟩

/-- One round of the SHA-256 compression function; `kw` is `K[t] + W[t]`. -/
def sha256Round (st : Sha256State) (kw : Nat) : Sha256State :=
  let t1 := w32 (st.sh + shaBsig1 st.se + shaCh st.se st.sf st.sg + kw)
  let t2 := w32 (shaBsig0 st.sa + shaMaj st.sa st.sb st.sc)
  ⟨w32 (t1 + t2), st.sa, st.sb, st.sc, w32 (st.sd + t1), st.se, st.sf, st.sg⟩

/-- Extend a 16-word block to the 64-word message schedule (48 steps). -/
def extendSchedule : Nat → List Nat → List Nat
  | 0, w => w
  | n + 1, w =>
    extendSchedule n (w ++ [w32 (shaSsig1 (w.getD (w.length - 2) 0) +
      w.getD (w.length - 7) 0 + shaSsig0 (w.getD (w.length - 15) 0) +
      w.getD (w.length - 16) 0)])

/-- The SHA-256 compression function over a 64-word schedule. -/
def sha256Compress (st : Sha256State) (ws : List Nat) : Sha256State :=
  (sha256K.zip ws).foldl (fun s kw => sha256Round s (kw.1 + kw.2)) st

/-- Add two states word-wise modulo `2^32`. -/
def stAdd (x y : Sha256State) : Sha256State :=
  ⟨w32 (x.sa + y.sa), w32 (x.sb + y.sb), w32 (x.sc + y.sc), w32 (x.sd + y.sd),
   w32 (x.se + y.se), w32 (x.sf + y.sf), w32 (x.sg + y.sg), w32 (x.sh + y.sh)⟩

/-- Pack bytes into big-endian 32-bit words. -/
def packWords : List Nat → List Nat
  | b1 :: b2 :: b3 :: b4 :: rest =>
    (b1 * 16777216 + b2 * 65536 + b3 * 256 + b4) :: packWords rest
  | _ => []

/-- Process `n` 16-word blocks. -/
def sha256Blocks : Nat → Sha256State → List Nat → Sha256State
  | 0, st, _ => st
  | n + 1, st, ws =>
    sha256Blocks n (stAdd st (sha256Compress st (extendSchedule 48 (ws.take 16)))) (ws.drop 16)

/-- The big-endian 8-byte encoding of the bit length. -/
def shaLenBytes (n : Nat) : List Nat :=
  [n / 72057594037927936 % 256, n / 281474976710656 % 256, n / 1099511627776 % 256,
   n / 4294967296 % 256, n / 16777216 % 256, n / 65536 % 256, n / 256 % 256, n % 256]

/-- SHA-256 padding: `0x80`, zeros to 56 mod 64, then the 64-bit bit length. -/
def sha256Pad (msg : List Nat) : List Nat :=
  msg ++ 128 :: List.replicate ((119 - msg.length % 64) % 64) 0 ++ shaLenBytes (8 * msg.length)

/-- The SHA-256 state after hashing a byte string. -/
def sha256Digest (msg : List Nat) : Sha256State :=
  sha256Blocks ((sha256Pad msg).length / 64) sha256Init (packWords (sha256Pad msg))

/-- Lowercase hexadecimal digit, as an ASCII code. -/
def hexChar (n : Nat) : Nat := if n < 10 then 48 + n else 87 + n

/-- Eight lowercase hex characters of a 32-bit word, as ASCII codes. -/
def wordHex (x : Nat) : List Nat :=
  [hexChar (x / 268435456 % 16), hexChar (x / 16777216 % 16), hexChar (x / 1048576 % 16),
   hexChar (x / 65536 % 16), hexChar (x / 4096 % 16), hexChar (x / 256 % 16),
   hexChar (x / 16 % 16), hexChar (x % 16)]

/-- `hashlib.sha256(msg).hexdigest()`, as a Python string of code points. -/
def sha256hex (msg : List Nat) : PyStr :=
  wordHex (sha256Digest msg).sa ++ wordHex (sha256Digest msg).sb ++
  wordHex (sha256Digest msg).sc ++ wordHex (sha256Digest msg).sd ++
  wordHex (sha256Digest msg).se ++ wordHex (sha256Digest msg).sf ++
  wordHex (sha256Digest msg).sg ++ wordHex (sha256Digest msg).sh

/-- A SHA-256 hex digest always has 64 characters. -/
theorem sha256hex_length (msg : List Nat) : (sha256hex msg).length = 64 := by
  simp [sha256hex, wordHex]

/-- `PrefixStore.transform_key` (utils.py lines 435-436): `self.prefix + key`. -/
def prefixStoreTransformKey (pfx key : PyStr) : PyStr := pfx ++ key

/-- `PrefixStore.reverse_transform_key` (utils.py lines 438-439):
`key[len(self.prefix):]`. -/
def prefixStoreReverseTransformKey (pfx key : PyStr) : PyStr := key.drop pfx.length

theorem prefixStore_roundtrip (pfx key : PyStr) :
    prefixStoreReverseTransformKey pfx (prefixStoreTransformKey pfx key) = key := by
  unfold prefixStoreReverseTransformKey prefixStoreTransformKey
  exact List.drop_left pfx key

/-- `HashPrefixStore.transform_key` (utils.py lines 449-451):
`sha256(key.encode()).hexdigest()[:hash_length] + separator + key`. -/
def hashPfxTransformKey (hashLength : Nat) (sep key : PyStr) : Option PyStr :=
  (utf8Encode key).map (fun b => (sha256hex b).take hashLength ++ sep ++ key)

/-- `HashPrefixStore.reverse_transform_key` (utils.py lines 453-454):
`key[self.hash_length + len(self.separator):]`. -/
def hashPfxReverseTransformKey (hashLength : Nat) (sep key : PyStr) : PyStr :=
  key.drop (hashLength + sep.length)

theorem hashPfx_roundtrip (hashLength : Nat) (sep key : PyStr) (hhl : hashLength ≤ 64)
    (hvalid : ValidStr key) :
    ∃ t, hashPfxTransformKey hashLength sep key = some t ∧
      hashPfxReverseTransformKey hashLength sep t = key := by
  obtain ⟨b, hb⟩ := utf8Encode_isSome key hvalid
  refine ⟨(sha256hex b).take hashLength ++ sep ++ key, ?_, ?_⟩
  · rw [hashPfxTransformKey, hb]
    rfl
  · unfold hashPfxReverseTransformKey
    have hlen : ((sha256hex b).take hashLength ++ sep).length = hashLength + sep.length := by
      simp only [List.length_append, List.length_take, sha256hex_length]
      omega
    rw [← hlen, List.drop_left]

/-! ## `urllib.parse.quote` / `unquote` and `UrlEncodingStore` -/

/-- The characters `quote` never escapes (`_ALWAYS_SAFE`: ASCII letters,
digits and `_.-~`); `UrlEncodingStore` passes `safe=''`, adding nothing. -/
def quoteSafe (b : Nat) : Bool :=
  (65 ≤ b && b ≤ 90) || (97 ≤ b && b ≤ 122) || (48 ≤ b && b ≤ 57) ||
  b == 95 || b == 46 || b == 45 || b == 126

/-- Uppercase hexadecimal digit as an ASCII code (`quote` emits `%XX`). -/
def hexUpChar (n : Nat) : Nat := if n < 10 then 48 + n else 55 + n

/-- Percent-encode one byte (`quote_from_bytes`). -/
def quoteByte (b : Nat) : List Nat :=
  if quoteSafe b then [b] else [37, hexUpChar (b / 16), hexUpChar (b % 16)]

/-- `urllib.parse.quote(part, safe='')`: UTF-8 encode then percent-encode
every byte; `none` where Python raises `UnicodeEncodeError`. -/
def pyQuote (s : PyStr) : Option PyStr :=
  (utf8Encode s).map (fun bs => (bs.map quoteByte).flatten)

/-- Value of one hexadecimal digit, case-insensitive (`unquote`). -/
def hexVal (c : Nat) : Option Nat :=
  if 48 ≤ c ∧ c ≤ 57 then some (c - 48)
  else if 65 ≤ c ∧ c ≤ 70 then some (c - 55)
  else if 97 ≤ c ∧ c ≤ 102 then some (c - 87)
  else none

/-- One step of `urllib.parse.unquote_to_bytes`: a `'%'` followed by two
hex digits yields the byte they denote; any other character passes through
as its own byte. -/
def unescapeOne (c : Nat) (rest : List Nat) : Nat × List Nat :=
  if c = 37 then
    match rest with
    | c1 :: c2 :: rest2 =>
      match hexVal c1, hexVal c2 with
      | some h1, some h2 => (16 * h1 + h2, rest2)
      | _, _ => (37, rest)
    | _ => (37, rest)
  else (c, rest)

theorem unescapeOne_le (c : Nat) (rest : List Nat) :
    (unescapeOne c rest).2.length ≤ rest.length := by
  unfold unescapeOne
  split_ifs
  · rcases rest with _ | ⟨c1, _ | ⟨c2, rest2⟩⟩
    · simp
    · simp
    · rcases h1 : hexVal c1 with _ | v1 <;> rcases h2 : hexVal c2 with _ | v2 <;>
        simp [h1, h2] <;> omega
  · simp

/-- Fuel-indexed `unquote_to_bytes` over an ASCII run. -/
def unescapeBytesFuel : Nat → List Nat → List Nat
  | _, [] => []
  | 0, l => l
  | fuel + 1, c :: rest =>
    (unescapeOne c rest).1 :: unescapeBytesFuel fuel (unescapeOne c rest).2

/-- `urllib.parse.unquote_to_bytes` on an ASCII run. -/
def unescapeBytes (l : List Nat) : List Nat := unescapeBytesFuel l.length l

theorem unescapeBytesFuel_congr (f₁ : Nat) :
    ∀ (f₂ : Nat) (l : List Nat), l.length ≤ f₁ → l.length ≤ f₂ →
      unescapeBytesFuel f₁ l = unescapeBytesFuel f₂ l := by
  induction f₁ with
  | zero =>
    intro f₂ l h₁ h₂
    cases l with
    | nil => cases f₂ <;> rfl
    | cons b rest => simp at h₁
  | succ n ih =>
    intro f₂ l h₁ h₂
    cases l with
    | nil => cases f₂ <;> rfl
    | cons b rest =>
      cases f₂ with
      | zero => simp at h₂
      | succ m =>
        simp only [List.length_cons] at h₁ h₂
        simp only [unescapeBytesFuel]
        have hle := unescapeOne_le b rest
        rw [ih m _ (by omega) (by omega)]

theorem unescapeBytes_cons (c : Nat) (rest : List Nat) :
    unescapeBytes (c :: rest) =
      (unescapeOne c rest).1 :: unescapeBytes (unescapeOne c rest).2 := by
  show unescapeBytesFuel (rest.length + 1) (c :: rest) = _
  simp only [unescapeBytesFuel]
  have hle := unescapeOne_le c rest
  rw [unescapeBytesFuel_congr rest.length (unescapeOne c rest).2.length _ hle le_rfl]
  rfl

/-- Fuel-indexed total UTF-8 decoder with U+FFFD replacement on errors,
modelling `bytes.decode('utf-8', errors='replace')`. -/
def utf8DecodeReplaceFuel : Nat → List Nat → List Nat
  | _, [] => []
  | 0, l => l
  | fuel + 1, b :: rest =>
    match utf8DecodeOne b rest with
    | some (c, rest') => c :: utf8DecodeReplaceFuel fuel rest'
    | none => 65533 :: utf8DecodeReplaceFuel fuel rest

/-- `bytes.decode('utf-8', errors='replace')`. -/
def utf8DecodeReplace (l : List Nat) : List Nat := utf8DecodeReplaceFuel l.length l

theorem utf8DecodeReplaceFuel_congr (f₁ : Nat) :
    ∀ (f₂ : Nat) (l : List Nat), l.length ≤ f₁ → l.length ≤ f₂ →
      utf8DecodeReplaceFuel f₁ l = utf8DecodeReplaceFuel f₂ l := by
  induction f₁ with
  | zero =>
    intro f₂ l h₁ h₂
    cases l with
    | nil => cases f₂ <;> rfl
    | cons b rest => simp at h₁
  | succ n ih =>
    intro f₂ l h₁ h₂
    cases l with
    | nil => cases f₂ <;> rfl
    | cons b rest =>
      cases f₂ with
      | zero => simp at h₂
      | succ m =>
        simp only [List.length_cons] at h₁ h₂
        simp only [utf8DecodeReplaceFuel]
        cases h : utf8DecodeOne b rest with
        | none =>
          dsimp only
          rw [ih m rest (by omega) (by omega)]
        | some p =>
          obtain ⟨c, rest'⟩ := p
          dsimp only
          have hle : rest'.length ≤ rest.length := utf8DecodeOne_le b rest c rest' h
          rw [ih m rest' (by omega) (by omega)]

theorem utf8DecodeReplace_cons (b : Nat) (rest : List Nat) :
    utf8DecodeReplace (b :: rest) =
      match utf8DecodeOne b rest with
      | some (c, rest') => c :: utf8DecodeReplace rest'
      | none => 65533 :: utf8DecodeReplace rest := by
  show utf8DecodeReplaceFuel (rest.length + 1) (b :: rest) = _
  simp only [utf8DecodeReplaceFuel]
  cases h : utf8DecodeOne b rest with
  | none =>
    dsimp only
    rfl
  | some p =>
    obtain ⟨c, rest'⟩ := p
    dsimp only
    rw [utf8DecodeReplaceFuel_congr rest.length rest'.length rest'
      (utf8DecodeOne_le b rest c rest' h) le_rfl]
    rfl

/-- On bytes produced by a successful `str.encode('utf-8')`, the replacing
decoder agrees with the strict one and recovers the string. -/
theorem utf8DecodeReplace_utf8Encode (s : PyStr) (bs : List Nat)
    (h : utf8Encode s = some bs) : utf8DecodeReplace bs = s := by
  induction s generalizing bs with
  | nil => cases h; rfl
  | cons c t ih =>
    cases hc : utf8EncodeChar c with
    | none => simp only [utf8Encode, hc] at h; cases h
    | some bc =>
      cases ht : utf8Encode t with
      | none => simp only [utf8Encode, hc, ht] at h; cases h
      | some bt =>
        simp only [utf8Encode, hc, ht] at h
        cases h
        cases hbc : bc with
        | nil => exact absurd hbc (utf8EncodeChar_ne_nil c bc hc)
        | cons b0 btl =>
          subst hbc
          simp only [List.cons_append]
          rw [utf8DecodeReplace_cons, utf8DecodeOne_encode c _ hc bt b0 btl rfl]
          dsimp only
          rw [ih bt ht]

/-- Fuel-indexed `urllib.parse.unquote`: maximal ASCII runs are unescaped
and decoded as UTF-8 with replacement (CPython splits on `_asciire` and
decodes each ASCII chunk); non-ASCII characters pass through unchanged. -/
def pyUnquoteFuel : Nat → List Nat → List Nat
  | _, [] => []
  | 0, l => l
  | fuel + 1, c :: rest =>
    if c < 128 then
      utf8DecodeReplace (unescapeBytes ((c :: rest).takeWhile (fun x => decide (x < 128)))) ++
        pyUnquoteFuel fuel (rest.dropWhile (fun x => decide (x < 128)))
    else c :: pyUnquoteFuel fuel rest

/-- `urllib.parse.unquote` (default `utf-8`/`replace`). -/
def pyUnquote (l : PyStr) : PyStr := pyUnquoteFuel l.length l

theorem takeWhile_eq_self_of_all {α : Type} (p : α → Bool) (l : List α)
    (h : ∀ x ∈ l, p x = true) : l.takeWhile p = l := by
  induction l with
  | nil => rfl
  | cons x t ih =>
    simp only [List.takeWhile_cons, h x (by simp)]
    rw [ih (fun y hy => h y (by simp [hy]))]
    simp

theorem dropWhile_eq_nil_of_all {α : Type} (p : α → Bool) (l : List α)
    (h : ∀ x ∈ l, p x = true) : l.dropWhile p = [] := by
  induction l with
  | nil => rfl
  | cons x t ih =>
    simp only [List.dropWhile_cons, h x (by simp)]
    exact ih (fun y hy => h y (by simp [hy]))

/-- On an all-ASCII string `unquote` is exactly unescape-then-decode. -/
theorem pyUnquote_ascii (s : PyStr) (h : ∀ c ∈ s, c < 128) :
    pyUnquote s = utf8DecodeReplace (unescapeBytes s) := by
  cases s with
  | nil => rfl
  | cons c rest =>
    show pyUnquoteFuel (rest.length + 1) (c :: rest) = _
    simp only [pyUnquoteFuel]
    rw [if_pos (h c (by simp))]
    rw [takeWhile_eq_self_of_all _ _ (fun x hx => by simpa using h x hx)]
    rw [dropWhile_eq_nil_of_all _ _ (fun x hx => by simpa using h x (by simp [hx]))]
    cases rest.length <;> simp [pyUnquoteFuel]

theorem hexVal_hexUpChar (n : Nat) (h : n < 16) : hexVal (hexUpChar n) = some n := by
  unfold hexVal hexUpChar
  split_ifs <;> first | (congr 1; omega) | omega

theorem quoteSafe_facts (b : Nat) (h : quoteSafe b = true) :
    b < 128 ∧ b ≠ 37 ∧ b ≠ 47 := by
  unfold quoteSafe at h
  simp only [Bool.or_eq_true, Bool.and_eq_true, decide_eq_true_eq, beq_iff_eq] at h
  omega

/-- Unescaping the percent-encoding of a byte string recovers the bytes. -/
theorem unescapeBytes_quote (bs : List Nat) (h : ∀ b ∈ bs, b < 256) :
    unescapeBytes ((bs.map quoteByte).flatten) = bs := by
  induction bs with
  | nil => rfl
  | cons b t ih =>
    have hb : b < 256 := h b (by simp)
    have iht := ih (fun x hx => h x (by simp [hx]))
    simp only [List.map_cons, List.flatten_cons]
    by_cases hs : quoteSafe b = true
    · obtain ⟨h128, h37, _⟩ := quoteSafe_facts b hs
      rw [quoteByte, if_pos hs]
      simp only [List.cons_append, List.nil_append]
      rw [unescapeBytes_cons]
      unfold unescapeOne
      rw [if_neg h37]
      simpa using iht
    · rw [quoteByte, if_neg hs]
      simp only [List.cons_append, List.nil_append]
      rw [unescapeBytes_cons]
      unfold unescapeOne
      rw [if_pos rfl]
      simp only [hexVal_hexUpChar (b / 16) (by omega), hexVal_hexUpChar (b % 16) (by omega)]
      have hb' : 16 * (b / 16) + b % 16 = b := by omega
      rw [hb', iht]

/-- Every character of a quoted string is ASCII and is not `'/'`. -/
theorem quote_chars (bs : List Nat) (h : ∀ b ∈ bs, b < 256) :
    ∀ c ∈ (bs.map quoteByte).flatten, c < 128 ∧ c ≠ 47 := by
  intro c hc
  obtain ⟨l, hl, hcl⟩ := List.mem_flatten.mp hc
  obtain ⟨b, hb, rfl⟩ := List.mem_map.mp hl
  have hb256 : b < 256 := h b hb
  by_cases hs : quoteSafe b = true
  · rw [quoteByte, if_pos hs] at hcl
    simp only [List.mem_singleton] at hcl
    subst hcl
    obtain ⟨h1, _, h3⟩ := quoteSafe_facts c hs
    exact ⟨h1, h3⟩
  · rw [quoteByte, if_neg hs] at hcl
    simp only [List.mem_cons, List.not_mem_nil, or_false] at hcl
    have hx : ∀ n, n < 16 → hexUpChar n < 128 ∧ hexUpChar n ≠ 47 := by
      intro n hn
      unfold hexUpChar
      split_ifs <;> omega
    rcases hcl with rfl | rfl | rfl
    · omega
    · exact hx _ (by omega)
    · exact hx _ (by omega)

/-- `unquote(quote(part)) == part` for every encodable part. -/
theorem pyUnquote_pyQuote (s : PyStr) (q : PyStr) (hq : pyQuote s = some q) :
    pyUnquote q = s := by
  unfold pyQuote at hq
  cases hb : utf8Encode s with
  | none => rw [hb] at hq; cases hq
  | some bs =>
    rw [hb] at hq
    cases hq
    have hlt := utf8Encode_lt s bs hb
    rw [pyUnquote_ascii _ (fun c hc => (quote_chars bs hlt c hc).1)]
    rw [unescapeBytes_quote bs hlt]
    exact utf8DecodeReplace_utf8Encode s bs hb

/-- Python's `str.split('/')` (ASCII 47). -/
def pySplitSlash : List Nat → List (List Nat)
  | [] => [[]]
  | c :: rest =>
    if c = 47 then [] :: pySplitSlash rest
    else
      match pySplitSlash rest with
      | p :: ps => (c :: p) :: ps
      | [] => [[c]]

/-- Python's `'/'.join(...)`. -/
def pyJoinSlash : List (List Nat) → List Nat
  | [] => []
  | [p] => p
  | p :: ps => p ++ 47 :: pyJoinSlash ps

theorem pySplitSlash_ne_nil (l : List Nat) : pySplitSlash l ≠ [] := by
  cases l with
  | nil => simp [pySplitSlash]
  | cons c rest =>
    simp only [pySplitSlash]
    split_ifs
    · simp
    · cases pySplitSlash rest <;> simp

theorem pyJoinSlash_cons (p : List Nat) (ps : List (List Nat)) (h : ps ≠ []) :
    pyJoinSlash (p :: ps) = p ++ 47 :: pyJoinSlash ps := by
  cases ps with
  | nil => exact absurd rfl h
  | cons q qs => rfl

/-- `'/'.join(s.split('/')) == s`. -/
theorem pyJoinSlash_pySplitSlash (l : List Nat) :
    pyJoinSlash (pySplitSlash l) = l := by
  induction l with
  | nil => rfl
  | cons c rest ih =>
    simp only [pySplitSlash]
    split_ifs with hc
    · subst hc
      rw [pyJoinSlash_cons [] (pySplitSlash rest) (pySplitSlash_ne_nil rest), ih]
      rfl
    · cases hs : pySplitSlash rest with
      | nil => exact absurd hs (pySplitSlash_ne_nil rest)
      | cons p ps =>
        rw [hs] at ih
        cases ps with
        | nil =>
          simp only [pyJoinSlash] at ih ⊢
          rw [ih]
        | cons q qs =>
          rw [pyJoinSlash_cons _ _ (by simp)] at ih
          rw [pyJoinSlash_cons _ _ (by simp), ← ih]
          rfl

/-- Splitting a slash-free string is the identity (one part). -/
theorem pySplitSlash_no_slash (p : List Nat) (h : ∀ c ∈ p, c ≠ 47) :
    pySplitSlash p = [p] := by
  induction p with
  | nil => rfl
  | cons c rest ih =>
    simp only [pySplitSlash]
    rw [if_neg (h c (by simp)), ih (fun x hx => h x (by simp [hx]))]

theorem pySplitSlash_append (p t : List Nat) (h : ∀ c ∈ p, c ≠ 47) :
    pySplitSlash (p ++ 47 :: t) = p :: pySplitSlash t := by
  induction p with
  | nil => simp [pySplitSlash]
  | cons c rest ih =>
    simp only [List.cons_append, pySplitSlash, List.append_eq]
    rw [if_neg (h c (by simp)), ih (fun x hx => h x (by simp [hx]))]

/-- Splitting a slash-joined list of slash-free parts recovers the parts. -/
theorem pySplitSlash_pyJoinSlash (parts : List (List Nat)) (hne : parts ≠ [])
    (h : ∀ p ∈ parts, ∀ c ∈ p, c ≠ 47) :
    pySplitSlash (pyJoinSlash parts) = parts := by
  induction parts with
  | nil => exact absurd rfl hne
  | cons p ps ih =>
    cases ps with
    | nil =>
      simp only [pyJoinSlash]
      exact pySplitSlash_no_slash p (h p (by simp))
    | cons q qs =>
      rw [pyJoinSlash_cons _ _ (by simp),
        pySplitSlash_append p _ (h p (by simp)),
        ih (by simp) (fun r hr c hc => h r (by simp [hr]) c hc)]

/-- Characters of the parts of a split are characters of the string. -/
theorem pySplitSlash_mem (l : List Nat) :
    ∀ p ∈ pySplitSlash l, ∀ c ∈ p, c ∈ l := by
  induction l with
  | nil =>
    intro p hp c hc
    simp only [pySplitSlash, List.mem_singleton] at hp
    subst hp
    cases hc
  | cons x rest ih =>
    intro p hp c hc
    simp only [pySplitSlash] at hp
    split_ifs at hp with hx
    · rcases List.mem_cons.mp hp with rfl | hp
      · cases hc
      · exact List.mem_cons_of_mem x (ih p hp c hc)
    · cases hs : pySplitSlash rest with
      | nil => exact absurd hs (pySplitSlash_ne_nil rest)
      | cons r rs =>
        rw [hs] at hp
        rcases List.mem_cons.mp hp with rfl | hp
        · rcases List.mem_cons.mp hc with rfl | hc
          · simp
          · exact List.mem_cons_of_mem x (ih r (by rw [hs]; simp) c hc)
        · exact List.mem_cons_of_mem x (ih p (by rw [hs]; simp [hp]) c hc)

/-- `UrlEncodingStore.transform_key` (utils.py lines 467-471): split on
`'/'`, `quote` each part with `safe=''`, and re-join with `'/'`. -/
def urlTransformKey (key : PyStr) : Option PyStr :=
  (mapOpt pyQuote (pySplitSlash key)).map pyJoinSlash

/-- `UrlEncodingStore.reverse_transform_key` (utils.py lines 473-477):
split on `'/'`, `unquote` each part, and re-join with `'/'`. -/
def urlReverseTransformKey (key : PyStr) : PyStr :=
  pyJoinSlash ((pySplitSlash key).map pyUnquote)

/-- Quoting a list of encodable parts succeeds, yields slash-free ASCII
parts, and unquoting recovers each part. -/
theorem urlQuote_parts (parts : List (List Nat)) (h : ∀ p ∈ parts, ValidStr p) :
    ∃ qs, mapOpt pyQuote parts = some qs ∧ qs.map pyUnquote = parts ∧
      (∀ q ∈ qs, ∀ c ∈ q, c ≠ 47) := by
  induction parts with
  | nil => exact ⟨[], rfl, rfl, by simp⟩
  | cons p ps ih =>
    obtain ⟨bs, hbs⟩ := utf8Encode_isSome p (h p (by simp))
    have hqp : pyQuote p = some ((bs.map quoteByte).flatten) := by
      rw [pyQuote, hbs]
      rfl
    obtain ⟨qs, hqs, hun, hch⟩ := ih (fun r hr => h r (by simp [hr]))
    refine ⟨(bs.map quoteByte).flatten :: qs, ?_, ?_, ?_⟩
    · simp only [mapOpt, hqp, hqs]
    · simp only [List.map_cons, hun]
      rw [pyUnquote_pyQuote p _ hqp]
    · intro q hq c hc
      rcases List.mem_cons.mp hq with rfl | hq
      · exact (quote_chars bs (utf8Encode_lt p bs hbs) c hc).2
      · exact hch q hq c hc

/-- The URL-encoding key transformer round-trips every encodable key. -/
theorem urlTransform_roundtrip (key : PyStr) (hvalid : ValidStr key) :
    ∃ t, urlTransformKey key = some t ∧ urlReverseTransformKey t = key := by
  have hparts := pySplitSlash_mem key
  obtain ⟨qs, hqs, hun, hch⟩ := urlQuote_parts (pySplitSlash key)
    (fun p hp c hc => hvalid c (hparts p hp c hc))
  refine ⟨pyJoinSlash qs, ?_, ?_⟩
  · rw [urlTransformKey, hqs]
    rfl
  · have hqne : qs ≠ [] := by
      intro hcontra
      subst hcontra
      have := pySplitSlash_ne_nil key
      simp at hun
      exact this hun
    rw [urlReverseTransformKey, pySplitSlash_pyJoinSlash qs hqne hch, hun,
      pyJoinSlash_pySplitSlash]

/-! ## Claim C1 -/

/-- C1 counterexample: the filesystem-safe transformer does **not**
round-trip every key.  For the empty key, `transform_key("")` yields `"_"`,
and `reverse_transform_key("_")` computes `b32decode("=")`, which raises
`binascii.Error: Incorrect padding` — so the round trip never returns the
original key. -/
theorem c1_roundtrip_counterexample :
    (fsTransformKey (pyStr "")).bind fsReverseTransformKey ≠ some (pyStr "") := by
  decide

/-- C1 (amended): key round-trip law.  `PrefixStore` round-trips every key;
`HashPrefixStore` round-trips every encodable key when `hash_length` is at
most 64 (the length of a sha256 hex digest, which covers its default 8);
`UrlEncodingStore` round-trips every encodable key (including non-ASCII
keys and keys containing `'/'`); and the filesystem-safe
`FilesystemKeyTransformer` round-trips every **non-empty** encodable key —
the empty key is the sole exception, its reverse raising
`binascii.Error`. -/
theorem c1_key_roundtrip :
    (∀ pfx key : PyStr,
      prefixStoreReverseTransformKey pfx (prefixStoreTransformKey pfx key) = key) ∧
    (∀ (hashLength : Nat) (sep key : PyStr), hashLength ≤ 64 → ValidStr key →
      ∃ t, hashPfxTransformKey hashLength sep key = some t ∧
        hashPfxReverseTransformKey hashLength sep t = key) ∧
    (∀ key : PyStr, ValidStr key →
      ∃ t, urlTransformKey key = some t ∧ urlReverseTransformKey t = key) ∧
    (∀ key : PyStr, key ≠ [] → ValidStr key →
      ∃ fn, fsTransformKey key = some fn ∧ fsReverseTransformKey fn = some key) :=
  ⟨prefixStore_roundtrip, hashPfx_roundtrip, urlTransform_roundtrip, fsTransform_roundtrip⟩

/-- Witness for C1 on the concrete key `"a b/ü"` (non-ASCII, contains a
space and the path separator), with the default `hash_length = 8` and
separator `"/"`, and the prefix `"p/"`. -/
theorem c1_key_roundtrip_witness :
    prefixStoreReverseTransformKey (pyStr "p/")
        (prefixStoreTransformKey (pyStr "p/") (pyStr "a b/ü")) = pyStr "a b/ü" ∧
    (∃ t, hashPfxTransformKey 8 (pyStr "/") (pyStr "a b/ü") = some t ∧
      hashPfxReverseTransformKey 8 (pyStr "/") t = pyStr "a b/ü") ∧
    (∃ t, urlTransformKey (pyStr "a b/ü") = some t ∧
      urlReverseTransformKey t = pyStr "a b/ü") ∧
    (∃ fn, fsTransformKey (pyStr "a b/ü") = some fn ∧
      fsReverseTransformKey fn = some (pyStr "a b/ü")) :=
  ⟨c1_key_roundtrip.1 (pyStr "p/") (pyStr "a b/ü"),
   c1_key_roundtrip.2.1 8 (pyStr "/") (pyStr "a b/ü") (by decide) (by decide),
   c1_key_roundtrip.2.2.1 (pyStr "a b/ü") (by decide),
   c1_key_roundtrip.2.2.2 (pyStr "a b/ü") (by decide) (by decide)⟩

/-! ## Composable store combinators (src/storage/utils.py)

Contract-satisfying child stores are modelled as association lists from
string keys to natural values, with the `DictStore` semantics of
object.py: `get` returns the stored value or raises `KeyError` (`none`),
`put` overwrites, `exists` tests membership, `delete` removes an existing
key and raises `KeyError` otherwise, `keys` lists the keys. -/

abbrev Dict := List (String × Nat)

/-- `DictStore.get`: the stored value, or `none` for a raised `KeyError`. -/
def dictGet (d : Dict) (k : String) : Option Nat := d.lookup k

/-- `key in self.objects`. -/
def dictExists (d : Dict) (k : String) : Bool := (dictGet d k).isSome

/-- Remove a key's binding. -/
def dictErase (d : Dict) (k : String) : Dict := d.filter (fun kv => kv.1 != k)

/-- `DictStore.put`: bind `k` to `v`, overwriting any previous binding. -/
def dictPut (d : Dict) (k : String) (v : Nat) : Dict := (k, v) :: dictErase d k

/-- `DictStore.keys`. -/
def dictKeys (d : Dict) : List String := d.map Prod.fst

theorem dictGet_dictPut_self (d : Dict) (k : String) (v : Nat) :
    dictGet (dictPut d k v) k = some v := by
  simp [dictGet, dictPut, List.lookup]

theorem dictGet_dictErase_self (d : Dict) (k : String) :
    dictGet (dictErase d k) k = none := by
  induction d with
  | nil => rfl
  | cons kv t ih =>
    simp only [dictGet, dictErase, List.filter_cons] at ih ⊢
    by_cases h : kv.1 = k
    · rw [if_neg (by simp [h])]
      exact ih
    · rw [if_pos (by simpa using h)]
      simp only [List.lookup]
      rw [show (k == kv.1) = false from beq_eq_false_iff_ne.mpr (Ne.symm h)]
      exact ih

theorem dictGet_none_not_mem_keys (d : Dict) (k : String) (h : dictGet d k = none) :
    k ∉ dictKeys d := by
  induction d with
  | nil => simp [dictKeys]
  | cons kv t ih =>
    simp only [dictGet, List.lookup] at h
    rcases hbeq : (k == kv.1) with _ | _
    · rw [hbeq] at h
      simp only [dictKeys, List.map_cons, List.mem_cons]
      push_neg
      exact ⟨by simpa using hbeq, ih h⟩
    · rw [hbeq] at h
      cases h

/-! ### `CachingStore` (utils.py lines 98-138) -/

/-- `CachingStore.put`: write to main first, then to the cache. -/
def cachingPut (m c : Dict) (k : String) (v : Nat) : Dict × Dict :=
  (dictPut m k v, dictPut c k v)

/-- `CachingStore.get`: serve from the cache when it has the key, else read
main, populate the cache and return the data; `none` when main raises
`KeyError`.  Returns the value and the (main, cache) state afterwards. -/
def cachingGet (m c : Dict) (k : String) : Option (Nat × Dict × Dict) :=
  if dictExists c k then (dictGet c k).map (fun data => (data, m, c))
  else
    match dictGet m k with
    | some data => some (data, m, dictPut c k data)
    | none => none

/-- `CachingStore.exists`: cache or main. -/
def cachingExists (m c : Dict) (k : String) : Bool := dictExists c k || dictExists m k

/-- `CachingStore.keys`: the main store's keys only. -/
def cachingKeys (m c : Dict) : List String := dictKeys m

/-- `CachingStore.clear(key)`: evict the key from the cache (if present)
without touching main. -/
def cachingClearKey (m c : Dict) (k : String) : Dict × Dict :=
  if dictExists c k then (m, dictErase c k) else (m, c)

/-! ### `MirroringStore` (utils.py lines 62-95) -/

/-- A child store of a `MirroringStore`: its contents, whether its `put`
raises (like the tests' `ErrorStore`), and how many `put` calls it has
received. -/
structure MChild where
  data : Dict
  failPut : Bool
  putCalls : Nat
deriving DecidableEq

/-- One `child.put(key, data)` call: the updated child and whether the call
raised.  A failing child raises before mutating its state. -/
def mchildPut (ch : MChild) (k : String) (v : Nat) : MChild × Bool :=
  if ch.failPut then ({ ch with putCalls := ch.putCalls + 1 }, true)
  else ({ data := dictPut ch.data k v, failPut := ch.failPut, putCalls := ch.putCalls + 1 },
    false)

/-- `MirroringStore.put`: `for child in self.children: child.put(key, data)`.
An exception from a child propagates at once: the remaining children are
not visited, and the already-written children keep their writes. -/
def mirroringPut : List MChild → String → Nat → List MChild × Bool
  | [], _, _ => ([], false)
  | ch :: rest, k, v =>
    match mchildPut ch k v with
    | (ch', true) => (ch' :: rest, true)
    | (ch', false) =>
      match mirroringPut rest k v with
      | (rest', e) => (ch' :: rest', e)

/-! ### `KeyValidatingStore` (utils.py lines 349-389)

`KeyValidatingStore.transform_key` runs the validator (which returns
nothing or raises `KeyError`) and returns the key unchanged; every keyed
operation of `KeyTransformingStore` evaluates `self.transform_key(key)`
before delegating to `self.store`.  The child store counts the operations
delegated to it. -/

structure VChild where
  data : Dict
  calls : Nat
deriving DecidableEq

/-- `KeyValidatingStore.put` over a validator: `KeyError` message or `none`. -/
def kvPut (validator : String → Option String) (st : VChild) (k : String) (v : Nat) :
    VChild × Option String :=
  match validator k with
  | some e => (st, some e)
  | none => ({ data := dictPut st.data k v, calls := st.calls + 1 }, none)

/-- `KeyValidatingStore.get`. -/
def kvGet (validator : String → Option String) (st : VChild) (k : String) :
    VChild × Except String (Option Nat) :=
  match validator k with
  | some e => (st, .error e)
  | none => ({ st with calls := st.calls + 1 }, .ok (dictGet st.data k))

/-- `KeyValidatingStore.exists`. -/
def kvExists (validator : String → Option String) (st : VChild) (k : String) :
    VChild × Except String Bool :=
  match validator k with
  | some e => (st, .error e)
  | none => ({ st with calls := st.calls + 1 }, .ok (dictExists st.data k))

/-- `KeyValidatingStore.delete`. -/
def kvDelete (validator : String → Option String) (st : VChild) (k : String) :
    VChild × Except String Unit :=
  match validator k with
  | some e => (st, .error e)
  | none =>
    if dictExists st.data k then
      ({ data := dictErase st.data k, calls := st.calls + 1 }, .ok ())
    else ({ st with calls := st.calls + 1 }, .error "KeyError")

/-! ### `NotifyingStore` (utils.py lines 145-188) -/

/-- A wrapped child store whose `put` either succeeds or raises. -/
structure NChild where
  data : Dict
  failPut : Bool
deriving DecidableEq

inductive PyError where
  | childError
  | unboundLocalError
deriving DecidableEq

/-- `NotifyingStore.put` with `n` registered handlers.  Returns the wrapped
store's state, the list of `error` arguments the handlers were invoked
with (one entry per invoked handler), and what the call raises.

When the wrapped `put` succeeds, `e` is still `None` and every handler is
invoked with `None`.  When it raises, `except Exception as e: pass`
catches the exception — but Python deletes the binding `e` when the
`except` block exits, so the first later use of `e` (in the handler call
arguments, or in `if e is not None` when there are no handlers) raises
`UnboundLocalError`: no handler is invoked, and the caller sees
`UnboundLocalError` instead of the original exception. -/
def notifyPut (nHandlers : Nat) (st : NChild) (k : String) (v : Nat) :
    NChild × List (Option PyError) × Option PyError :=
  if st.failPut then (st, [], some PyError.unboundLocalError)
  else ({ st with data := dictPut st.data k v }, List.replicate nHandlers none, none)

/-! ## Claims C2, C10, C7, C8, C3 -/

/-- C2: cache coherence.  Over any contract-satisfying main and cache
stores, after `put(k, v)`: `get(k)` returns `v` and the cache child's
`get(k)` returns `v`; after evicting `k` from the cache alone via
`clear(k)`, `get(k)` still returns `v` (served from main), and the get
re-populates the cache so that the cache child's `get(k)` returns `v`
again. -/
theorem c2_cache_coherence (m c : Dict) (k : String) (v : Nat) :
    ((cachingGet (cachingPut m c k v).1 (cachingPut m c k v).2 k).map Prod.fst = some v) ∧
    (dictGet (cachingPut m c k v).2 k = some v) ∧
    ((cachingGet (cachingClearKey (cachingPut m c k v).1 (cachingPut m c k v).2 k).1
        (cachingClearKey (cachingPut m c k v).1 (cachingPut m c k v).2 k).2 k).map
      Prod.fst = some v) ∧
    ((cachingGet (cachingClearKey (cachingPut m c k v).1 (cachingPut m c k v).2 k).1
        (cachingClearKey (cachingPut m c k v).1 (cachingPut m c k v).2 k).2 k).map
      (fun r => dictGet r.2.2 k) = some (some v)) := by
  have hput : dictGet (dictPut c k v) k = some v := dictGet_dictPut_self c k v
  have hputm : dictGet (dictPut m k v) k = some v := dictGet_dictPut_self m k v
  have hex : dictExists (dictPut c k v) k = true := by
    simp [dictExists, hput]
  have herase : dictGet (dictErase (dictPut c k v) k) k = none :=
    dictGet_dictErase_self (dictPut c k v) k
  have hexe : dictExists (dictErase (dictPut c k v) k) k = false := by
    simp [dictExists, herase]
  refine ⟨?_, hput, ?_, ?_⟩
  · show (cachingGet (dictPut m k v) (dictPut c k v) k).map Prod.fst = some v
    rw [cachingGet, if_pos hex, hput]
    rfl
  · show (cachingGet (cachingClearKey (dictPut m k v) (dictPut c k v) k).1
        (cachingClearKey (dictPut m k v) (dictPut c k v) k).2 k).map Prod.fst = some v
    rw [cachingClearKey, if_pos hex]
    show (cachingGet (dictPut m k v) (dictErase (dictPut c k v) k) k).map Prod.fst = some v
    rw [cachingGet, if_neg (by simp [hexe]), hputm]
    rfl
  · show (cachingGet (cachingClearKey (dictPut m k v) (dictPut c k v) k).1
        (cachingClearKey (dictPut m k v) (dictPut c k v) k).2 k).map
      (fun r => dictGet r.2.2 k) = some (some v)
    rw [cachingClearKey, if_pos hex]
    show (cachingGet (dictPut m k v) (dictErase (dictPut c k v) k) k).map
      (fun r => dictGet r.2.2 k) = some (some v)
    rw [cachingGet, if_neg (by simp [hexe]), hputm]
    simp only [Option.map_some']
    rw [dictGet_dictPut_self]

/-- C10: `CachingStore.keys` enumerates only the main store's keys, so a
key present only in the cache satisfies `exists(k) == true` yet does not
appear in `keys()`. -/
theorem c10_cache_only_key (m c : Dict) (k : String)
    (h1 : dictExists c k = true) (h2 : dictGet m k = none) :
    cachingExists m c k = true ∧ k ∉ cachingKeys m c := by
  constructor
  · simp [cachingExists, h1]
  · exact dictGet_none_not_mem_keys m k h2

/-- Witness for C10: a key present only in the cache child. -/
theorem c10_cache_only_key_witness :
    cachingExists [] [("k", 1)] "k" = true ∧ "k" ∉ cachingKeys [] [("k", 1)] :=
  c10_cache_only_key [] [("k", 1)] "k" (by decide) (by decide)

/-- C7: `MirroringStore.put` failure behavior.  If the children are
`pre ++ bad :: post` where every child in `pre` succeeds and `bad`'s `put`
raises, then the exception propagates immediately: every child in `pre`
keeps its new write of `v` at `k` (no rollback), `bad` received the call
but is otherwise unchanged, and no child in `post` receives a `put` call
(they are returned exactly as they were, call counters included). -/
theorem c7_mirroring_put_failure (pre : List MChild) (bad : MChild) (post : List MChild)
    (k : String) (v : Nat) (hpre : ∀ ch ∈ pre, ch.failPut = false)
    (hbad : bad.failPut = true) :
    mirroringPut (pre ++ bad :: post) k v =
      (pre.map (fun ch =>
          { data := dictPut ch.data k v, failPut := ch.failPut,
            putCalls := ch.putCalls + 1 }) ++
        { bad with putCalls := bad.putCalls + 1 } :: post, true) ∧
    ∀ ch ∈ pre, dictGet (dictPut ch.data k v) k = some v := by
  refine ⟨?_, fun ch _ => dictGet_dictPut_self ch.data k v⟩
  induction pre with
  | nil =>
    simp only [List.nil_append, List.map_nil, mirroringPut, mchildPut, if_pos hbad]
  | cons ch rest ih =>
    have hch : ch.failPut = false := hpre ch (by simp)
    have ih' := ih (fun x hx => hpre x (by simp [hx]))
    simp only [List.cons_append, List.map_cons, mirroringPut]
    rw [mchildPut, if_neg (by simp [hch])]
    dsimp only
    simp only [List.append_eq] at ih' ⊢
    rw [ih']

/-- Witness for C7: two healthy children around one failing child. -/
theorem c7_mirroring_put_failure_witness :
    mirroringPut ([⟨[], false, 0⟩] ++ ⟨[], true, 0⟩ :: [⟨[], false, 0⟩]) "k" 7 =
      ([⟨[("k", 7)], false, 1⟩, ⟨[], true, 1⟩, ⟨[], false, 0⟩], true) ∧
    ∀ ch ∈ [(⟨[], false, 0⟩ : MChild)], dictGet (dictPut ch.data "k" 7) "k" = some 7 := by
  have h := c7_mirroring_put_failure [⟨[], false, 0⟩] ⟨[], true, 0⟩ [⟨[], false, 0⟩]
    "k" 7 (by decide) (by decide)
  exact ⟨by rw [h.1]; decide, h.2⟩

/-- C8: a rejecting validator aborts every keyed operation of
`KeyValidatingStore` before any delegation: the operation raises the
validator's error and the child store is returned exactly as it was (its
contents and its delegated-operation counter unchanged). -/
theorem c8_validator_rejects (validator : String → Option String) (st : VChild)
    (k : String) (v : Nat) (e : String) (h : validator k = some e) :
    kvPut validator st k v = (st, some e) ∧
    kvGet validator st k = (st, .error e) ∧
    kvExists validator st k = (st, .error e) ∧
    kvDelete validator st k = (st, .error e) := by
  refine ⟨?_, ?_, ?_, ?_⟩ <;> simp [kvPut, kvGet, kvExists, kvDelete, h]

/-- Witness for C8 with a concrete rejecting validator. -/
theorem c8_validator_rejects_witness :
    kvPut (fun s => if s = "bad" then some "rejected" else none) ⟨[("a", 1)], 3⟩ "bad" 9 =
      (⟨[("a", 1)], 3⟩, some "rejected") ∧
    kvGet (fun s => if s = "bad" then some "rejected" else none) ⟨[("a", 1)], 3⟩ "bad" =
      (⟨[("a", 1)], 3⟩, .error "rejected") ∧
    kvExists (fun s => if s = "bad" then some "rejected" else none) ⟨[("a", 1)], 3⟩ "bad" =
      (⟨[("a", 1)], 3⟩, .error "rejected") ∧
    kvDelete (fun s => if s = "bad" then some "rejected" else none) ⟨[("a", 1)], 3⟩ "bad" =
      (⟨[("a", 1)], 3⟩, .error "rejected") :=
  c8_validator_rejects (fun s => if s = "bad" then some "rejected" else none)
    ⟨[("a", 1)], 3⟩ "bad" 9 "rejected" (by decide)

/-- C3 (behavior of the code at the claim's inputs): when the wrapped
`put` succeeds, `NotifyingStore.put` invokes every registered handler with
`error = None` and returns normally — but when the wrapped `put` raises,
no handler is invoked at all and the call raises `UnboundLocalError`
rather than re-raising the original exception, because
`except Exception as e: pass` deletes the binding `e` at the end of the
except block. -/
theorem c3_notifying_put_behavior (n : Nat) (st : NChild) (k : String) (v : Nat) :
    (st.failPut = false → notifyPut n st k v =
      ({ st with data := dictPut st.data k v }, List.replicate n none, none)) ∧
    (st.failPut = true → notifyPut n st k v = (st, [], some PyError.unboundLocalError)) := by
  constructor
  · intro h
    rw [notifyPut, if_neg (by simp [h])]
  · intro h
    rw [notifyPut, if_pos h]

/-- Witness for C3: a failing wrapped store with one registered handler
(no handler invocations, `UnboundLocalError` raised), and a succeeding one
(handler invoked with `None`). -/
theorem c3_notifying_put_behavior_witness :
    notifyPut 1 ⟨[], true⟩ "k" 0 = (⟨[], true⟩, [], some PyError.unboundLocalError) ∧
    notifyPut 1 ⟨[], false⟩ "k" 0 = (⟨[("k", 0)], false⟩, [none], none) :=
  ⟨(c3_notifying_put_behavior 1 ⟨[], true⟩ "k" 0).2 rfl,
   by rw [(c3_notifying_put_behavior 1 ⟨[], false⟩ "k" 0).1 rfl]; decide⟩

/-! ## The declarative builder (src/storage/config_builder.py)

The YAML configuration is modelled structurally; the environment is a
partial map from variable names to values.  Python exceptions become
explicit error values: `ConfigError` is raised for recursive definitions,
missing environment variables and invalid base shapes, while the plain
dictionary lookups `self.stores[store_name]` and `self.STORES[store_type]`
raise `KeyError`. -/

/-- A YAML configuration value; `other` stands for any non-string scalar
(int, bool, None, ...), which `_resolve_values` returns unchanged. -/
inductive CVal where
  | str (s : String)
  | other (n : Nat)
  | vlist (l : List CVal)
  | vdict (d : List (String × CVal))

mutual

def cvalDecEq : (a b : CVal) → Decidable (a = b)
  | .str x, .str y =>
    match String.decEq x y with
    | isTrue h => isTrue (h ▸ rfl)
    | isFalse h => isFalse fun hab => h (CVal.str.inj hab)
  | .str _, .other _ => isFalse fun hab => CVal.noConfusion hab
  | .str _, .vlist _ => isFalse fun hab => CVal.noConfusion hab
  | .str _, .vdict _ => isFalse fun hab => CVal.noConfusion hab
  | .other _, .str _ => isFalse fun hab => CVal.noConfusion hab
  | .other x, .other y =>
    match Nat.decEq x y with
    | isTrue h => isTrue (h ▸ rfl)
    | isFalse h => isFalse fun hab => h (CVal.other.inj hab)
  | .other _, .vlist _ => isFalse fun hab => CVal.noConfusion hab
  | .other _, .vdict _ => isFalse fun hab => CVal.noConfusion hab
  | .vlist _, .str _ => isFalse fun hab => CVal.noConfusion hab
  | .vlist _, .other _ => isFalse fun hab => CVal.noConfusion hab
  | .vlist x, .vlist y =>
    match cvalListDecEq x y with
    | isTrue h => isTrue (h ▸ rfl)
    | isFalse h => isFalse fun hab => h (CVal.vlist.inj hab)
  | .vlist _, .vdict _ => isFalse fun hab => CVal.noConfusion hab
  | .vdict _, .str _ => isFalse fun hab => CVal.noConfusion hab
  | .vdict _, .other _ => isFalse fun hab => CVal.noConfusion hab
  | .vdict _, .vlist _ => isFalse fun hab => CVal.noConfusion hab
  | .vdict x, .vdict y =>
    match cvalDictDecEq x y with
    | isTrue h => isTrue (h ▸ rfl)
    | isFalse h => isFalse fun hab => h (CVal.vdict.inj hab)

def cvalListDecEq : (a b : List CVal) → Decidable (a = b)
  | [], [] => isTrue rfl
  | [], _ :: _ => isFalse fun hab => List.noConfusion hab
  | _ :: _, [] => isFalse fun hab => List.noConfusion hab
  | x :: xs, y :: ys =>
    match cvalDecEq x y, cvalListDecEq xs ys with
    | isTrue h1, isTrue h2 => isTrue (by rw [h1, h2])
    | isFalse h1, _ => isFalse fun hab => h1 (List.cons.inj hab).1
    | _, isFalse h2 => isFalse fun hab => h2 (List.cons.inj hab).2

def cvalDictDecEq : (a b : List (String × CVal)) → Decidable (a = b)
  | [], [] => isTrue rfl
  | [], _ :: _ => isFalse fun hab => List.noConfusion hab
  | _ :: _, [] => isFalse fun hab => List.noConfusion hab
  | (k1, v1) :: xs, (k2, v2) :: ys =>
    match String.decEq k1 k2, cvalDecEq v1 v2, cvalDictDecEq xs ys with
    | isTrue h1, isTrue h2, isTrue h3 => isTrue (by rw [h1, h2, h3])
    | isFalse h1, _, _ =>
      isFalse fun hab => h1 (congrArg Prod.fst (List.cons.inj hab).1)
    | _, isFalse h2, _ =>
      isFalse fun hab => h2 (congrArg Prod.snd (List.cons.inj hab).1)
    | _, _, isFalse h3 => isFalse fun hab => h3 (List.cons.inj hab).2

end

instance : DecidableEq CVal := cvalDecEq

/-- The process environment (`os.environ.get`); an empty-string value is a
present value, distinct from an unset variable. -/
abbrev Env := String → Option String

/-- The errors `StoreFactory.build` can raise. -/
inductive BuildErr where
  | envMissing (varName : String)
  | recursiveDef (storeName : String)
  | invalidBase (storeType : String) (baseKind : String)
  | keyError (key : String)
  | typeError
  | outOfFuel
deriving DecidableEq

/-- Which errors are Python `ConfigError`s (config_builder.py raises
`ConfigError` at lines 67, 108 and 121; the dictionary lookups raise plain
`KeyError`). -/
def isConfigError : BuildErr → Bool
  | .envMissing _ => true
  | .recursiveDef _ => true
  | .invalidBase _ _ => true
  | _ => false

/-- The exception messages of config_builder.py. -/
def buildErrMsg : BuildErr → String
  | .envMissing v =>
    "Environment variable '" ++ v ++ "' not found. Please set " ++ v ++
      " or provide a default value using $\x7b" ++ v ++ ":-default\x7d"
  | .recursiveDef n =>
    "Recursive store definition found -- " ++ n ++ " mentioned multiple times"
  | .invalidBase t k =>
    "Invalid base store configuration for " ++ t ++ ": base store definition is a " ++ k
  | .keyError k => k
  | .typeError => "TypeError"
  | .outOfFuel => "RecursionError"

def isIdentStart (c : Char) : Bool :=
  (65 ≤ c.toNat && c.toNat ≤ 90) || (97 ≤ c.toNat && c.toNat ≤ 122) || c == '_'

def isIdentChar (c : Char) : Bool := isIdentStart c || (48 ≤ c.toNat && c.toNat ≤ 57)

/-- Parse the whole-string match of
`^\$\x7b([A-Za-z_][A-Za-z0-9_]*)(:-([^\x7d]*))?\x7d$` (config_builder.py
line 98): the variable name and, when the `:-` form is used, the default. -/
def parseEnvRef (s : String) : Option (String × Option String) :=
  match s.data with
  | '$' :: '{' :: c :: rest =>
    if isIdentStart c then
      match rest.dropWhile isIdentChar with
      | ['}'] => some (String.mk (c :: rest.takeWhile isIdentChar), none)
      | ':' :: '-' :: drest =>
        match drest.reverse with
        | '}' :: dcs =>
          if dcs.any (fun x => x == '}') then none
          else some (String.mk (c :: rest.takeWhile isIdentChar), some (String.mk dcs.reverse))
        | _ => none
      | _ => none
    else none
  | _ => none

/-- Resolve one string config value (config_builder.py lines 97-109): an
environment reference is replaced by the variable's value, else by the
default, else a `ConfigError` is raised; other strings pass through. -/
def resolveString (env : Env) (s : String) : Except BuildErr CVal :=
  match parseEnvRef s with
  | none => .ok (.str s)
  | some (varName, dflt) =>
    match env varName with
    | some v => .ok (.str v)
    | none =>
      match dflt with
      | some d => .ok (.str d)
      | none => .error (.envMissing varName)

mutual

/-- `StoreFactory._resolve_values` (config_builder.py lines 91-111):
recursively resolve environment references in nested dicts/lists/strings;
anything else is returned unchanged. -/
def resolveValues (env : Env) : CVal → Except BuildErr CVal
  | .str s => resolveString env s
  | .other n => .ok (.other n)
  | .vlist l => (resolveCList env l).map CVal.vlist
  | .vdict d => (resolveCDict env d).map CVal.vdict

def resolveCList (env : Env) : List CVal → Except BuildErr (List CVal)
  | [] => .ok []
  | v :: t =>
    match resolveValues env v with
    | .error e => .error e
    | .ok v' =>
      match resolveCList env t with
      | .error e => .error e
      | .ok t' => .ok (v' :: t')

def resolveCDict (env : Env) : List (String × CVal) → Except BuildErr (List (String × CVal))
  | [] => .ok []
  | (k, v) :: t =>
    match resolveValues env v with
    | .error e => .error e
    | .ok v' =>
      match resolveCDict env t with
      | .error e => .error e
      | .ok t' => .ok ((k, v') :: t')

end

/-- One named store definition: `{type, config, base}` with `config` and
`base` defaulting to the empty dict (`store_def.get(..., {})`). -/
structure StoreDef where
  type : String
  config : CVal
  base : CVal
deriving DecidableEq

/-- The loaded YAML configuration: the `stores` mapping and the `main`
store name. -/
structure FactoryConfig where
  stores : List (String × StoreDef)
  mainStore : Option String

/-- The keys of `StoreFactory.STORES` (config_builder.py lines 22-55). -/
def KNOWN_STORES : List String :=
  ["AsyncSqliteStore", "AsyncFilesystemStore", "AsyncHashdirStore", "AsyncFanoutStore",
   "AsyncCachingStore", "SqliteStore", "FilesystemStore", "HashdirStore", "MediaStore",
   "DictStore", "BucketStore", "AsyncBucketStore", "IdentityStore", "ReadonlyStore",
   "WriteonlyStore", "MirroringStore", "CachingStore", "NotifyingStore", "LoggingStore",
   "ExceptionLoggingStore", "TransformingStore", "TextEncodingStore", "GzipStore",
   "BufferStore", "Base64Store", "JsonStore", "KeyTransformingStore", "PrefixStore",
   "HashPrefixStore", "UrlEncodingStore", "UrlValidatingStore", "RegexValidatingStore"]

/-- `self.stores[store_name]` (a `KeyError` when absent). -/
def lookupStore (cfg : FactoryConfig) (name : String) : Option StoreDef :=
  cfg.stores.lookup name

/-- The object graph `build` returns: the store class applied to its
resolved config and its built child stores (in build order: the single
`store` child, `main_store` then `cache_store`, or the `children` list). -/
inductive Built where
  | node (type : String) (config : CVal) (kids : List Built)

mutual

def builtDecEq : (a b : Built) → Decidable (a = b)
  | .node t1 c1 k1, .node t2 c2 k2 =>
    match String.decEq t1 t2, cvalDecEq c1 c2, builtListDecEq k1 k2 with
    | isTrue h1, isTrue h2, isTrue h3 => isTrue (by rw [h1, h2, h3])
    | isFalse h1, _, _ => isFalse fun hab => h1 (Built.node.inj hab).1
    | _, isFalse h2, _ => isFalse fun hab => h2 (Built.node.inj hab).2.1
    | _, _, isFalse h3 => isFalse fun hab => h3 (Built.node.inj hab).2.2

def builtListDecEq : (a b : List Built) → Decidable (a = b)
  | [], [] => isTrue rfl
  | [], _ :: _ => isFalse fun hab => List.noConfusion hab
  | _ :: _, [] => isFalse fun hab => List.noConfusion hab
  | x :: xs, y :: ys =>
    match builtDecEq x y, builtListDecEq xs ys with
    | isTrue h1, isTrue h2 => isTrue (by rw [h1, h2])
    | isFalse h1, _ => isFalse fun hab => h1 (List.cons.inj hab).1
    | _, isFalse h2 => isFalse fun hab => h2 (List.cons.inj hab).2

end

instance : DecidableEq Built := builtDecEq

instance {e a : Type} [DecidableEq e] [DecidableEq a] : DecidableEq (Except e a)
  | .ok x, .ok y =>
    match decEq x y with
    | isTrue h => isTrue (h ▸ rfl)
    | isFalse h => isFalse fun hab => h (Except.ok.inj hab)
  | .ok _, .error _ => isFalse fun hab => Except.noConfusion hab
  | .error _, .ok _ => isFalse fun hab => Except.noConfusion hab
  | .error x, .error y =>
    match decEq x y with
    | isTrue h => isTrue (h ▸ rfl)
    | isFalse h => isFalse fun hab => h (Except.error.inj hab)

/-- Build the children of a list-shaped base via the supplied recursive
build function, threading the `built_stores` state and propagating the
first exception. -/
def buildList (f : List String → String → List String × Except BuildErr Built) :
    List String → List CVal → List String × Except BuildErr (List Built)
  | built, [] => (built, .ok [])
  | built, v :: t =>
    match v with
    | .str nm =>
      match f built nm with
      | (built', .error e) => (built', .error e)
      | (built', .ok b) =>
        match buildList f built' t with
        | (built'', .error e) => (built'', .error e)
        | (built'', .ok bs) => (built'', .ok (b :: bs))
    | _ => (built, .error .typeError)

/-- `_parse_dictionary_base` plus the construction (config_builder.py
lines 70-77): only the caching store types accept a dict base; its
`main_store` and `cache_store` entries are built in that order. -/
def buildDictBase (recurse : List String → String → List String × Except BuildErr Built)
    (built1 : List String) (stype : String) (rconfig : CVal) (d : List (String × CVal)) :
    List String × Except BuildErr Built :=
  if stype = "CachingStore" ∨ stype = "AsyncCachingStore" then
    match d.lookup "main_store" with
    | none => (built1, .error (.keyError "main_store"))
    | some (.str mname) =>
      match recurse built1 mname with
      | (built2, .error e) => (built2, .error e)
      | (built2, .ok mbuilt) =>
        match d.lookup "cache_store" with
        | none => (built2, .error (.keyError "cache_store"))
        | some (.str cname) =>
          match recurse built2 cname with
          | (built3, .error e) => (built3, .error e)
          | (built3, .ok cbuilt) => (built3, .ok (.node stype rconfig [mbuilt, cbuilt]))
        | some _ => (built2, .error .typeError)
    | some _ => (built1, .error .typeError)
  else (built1, .error (.invalidBase stype "dict"))

/-- `_parse_list_base` plus the construction (config_builder.py lines
80-89): only the fan-out store types accept a list base. -/
def buildListBase (recurse : List String → String → List String × Except BuildErr Built)
    (built1 : List String) (stype : String) (rconfig : CVal) (l : List CVal) :
    List String × Except BuildErr Built :=
  if stype = "MirroringStore" ∨ stype = "AsyncFanoutStore" then
    match buildList recurse built1 l with
    | (built2, .error e) => (built2, .error e)
    | (built2, .ok kids) => (built2, .ok (.node stype rconfig kids))
  else (built1, .error (.invalidBase stype "list"))

/-- The string-base branch (config_builder.py line 140): build the raw
`store_def['base']` name and inject it as the single `store` child. -/
def buildStrBase (recurse : List String → String → List String × Except BuildErr Built)
    (built1 : List String) (stype : String) (rconfig : CVal) (rawBase : CVal) :
    List String × Except BuildErr Built :=
  match rawBase with
  | .str rawName =>
    match recurse built1 rawName with
    | (built2, .error e) => (built2, .error e)
    | (built2, .ok child) => (built2, .ok (.node stype rconfig [child]))
  | _ => (built1, .error .typeError)

/-- The body of `StoreFactory.build(store_name)` after the recursion check
(config_builder.py lines 124-144), over an abstract recursive build
function `recurse` and with the name already marked in `built1`:
look up the definition and the store class (plain `KeyError`s when
absent), resolve the config and the base, then construct the store with
its recursively built children. -/
def buildBody (cfg : FactoryConfig) (env : Env)
    (recurse : List String → String → List String × Except BuildErr Built)
    (built1 : List String) (name : String) : List String × Except BuildErr Built :=
  match lookupStore cfg name with
  | none => (built1, .error (.keyError name))
  | some sdef =>
    if sdef.type ∉ KNOWN_STORES then (built1, .error (.keyError sdef.type))
    else
      match resolveValues env sdef.config with
      | .error e => (built1, .error e)
      | .ok rconfig =>
        match resolveValues env sdef.base with
        | .error e => (built1, .error e)
        | .ok rbase =>
          if rbase = .vdict [] then (built1, .ok (.node sdef.type rconfig []))
          else
            match rbase with
            | .vdict d => buildDictBase recurse built1 sdef.type rconfig d
            | .vlist l => buildListBase recurse built1 sdef.type rconfig l
            | .str _ => buildStrBase recurse built1 sdef.type rconfig sdef.base
            | _ => (built1, .error (.invalidBase sdef.type "other"))

/-- `StoreFactory.build(store_name)` (config_builder.py lines 112-144),
with `built_stores` threaded explicitly: the instance attribute is set in
`__init__` and mutated by every call, surviving raised exceptions and
later `build` calls on the same factory.  The fuel argument bounds the
Python call depth; `.error .outOfFuel` stands for a recursion blow-up,
which `buildName_no_fuel_error` below proves unreachable with fuel
`cfg.stores.length + 1`. -/
def buildName (cfg : FactoryConfig) (env : Env) :
    Nat → List String → String → List String × Except BuildErr Built
  | 0, built, _ => (built, .error .outOfFuel)
  | fuel + 1, built, name =>
    if name ∈ built then (built, .error (.recursiveDef name))
    else buildBody cfg env (buildName cfg env fuel) (name :: built) name

/-- A top-level `factory.build(name)` call: Python recursion depth is
bounded by `len(self.stores) + 1` frames before the `built_stores` check
fires, so that fuel is always sufficient. -/
def buildCall (cfg : FactoryConfig) (env : Env) (built : List String) (name : String) :
    List String × Except BuildErr Built :=
  buildName cfg env (cfg.stores.length + 1) built name

theorem lookup_some_mem {B : Type} (l : List (String × B)) (k : String) (v : B)
    (h : l.lookup k = some v) : k ∈ l.map Prod.fst := by
  induction l with
  | nil => cases h
  | cons kv t ih =>
    obtain ⟨k1, v1⟩ := kv
    simp only [List.lookup] at h
    rcases hbeq : (k == k1) with _ | _
    · rw [hbeq] at h
      exact List.mem_cons_of_mem _ (ih h)
    · have : k = k1 := by simpa using hbeq
      simp [this]

theorem buildList_subset (f : List String → String → List String × Except BuildErr Built)
    (hf : ∀ b nm, b ⊆ (f b nm).1) :
    ∀ (b : List String) (l : List CVal), b ⊆ (buildList f b l).1 := by
  intro b l
  induction l generalizing b with
  | nil => exact fun x hx => hx
  | cons v t ih =>
    cases v with
    | str nm =>
      simp only [buildList]
      split
      · rename_i b' e h1
        have := hf b nm
        rw [h1] at this
        exact this
      · rename_i b' bb h1
        have hb' : b ⊆ b' := by have := hf b nm; rw [h1] at this; exact this
        split
        · rename_i b'' e h2
          have := ih b'
          rw [h2] at this
          exact hb'.trans this
        · rename_i b'' bs h2
          have := ih b'
          rw [h2] at this
          exact hb'.trans this
    | other n => exact fun x hx => hx
    | vlist l2 => exact fun x hx => hx
    | vdict d2 => exact fun x hx => hx

theorem buildDictBase_subset
    (recurse : List String → String → List String × Except BuildErr Built)
    (built1 : List String) (stype : String) (rconfig : CVal) (d : List (String × CVal))
    (hrec : ∀ b nm, b ⊆ (recurse b nm).1) :
    built1 ⊆ (buildDictBase recurse built1 stype rconfig d).1 := by
  unfold buildDictBase
  split
  · split
    · exact fun x hx => hx
    · rename_i mname heq
      split
      · rename_i built2 e h2
        have := hrec built1 mname
        rw [h2] at this
        exact this
      · rename_i built2 mb h2
        have hb2 : built1 ⊆ built2 := by
          have := hrec built1 mname; rw [h2] at this; exact this
        split
        · exact hb2
        · rename_i cname heq2
          split
          · rename_i built3 e h3
            have := hrec built2 cname
            rw [h3] at this
            exact hb2.trans this
          · rename_i built3 cb h3
            have := hrec built2 cname
            rw [h3] at this
            exact hb2.trans this
        · exact hb2
    · exact fun x hx => hx
  · exact fun x hx => hx

theorem buildListBase_subset
    (recurse : List String → String → List String × Except BuildErr Built)
    (built1 : List String) (stype : String) (rconfig : CVal) (l : List CVal)
    (hrec : ∀ b nm, b ⊆ (recurse b nm).1) :
    built1 ⊆ (buildListBase recurse built1 stype rconfig l).1 := by
  unfold buildListBase
  split
  · split
    · rename_i built2 e h2
      have := buildList_subset recurse hrec built1 l
      rw [h2] at this
      exact this
    · rename_i built2 kids h2
      have := buildList_subset recurse hrec built1 l
      rw [h2] at this
      exact this
  · exact fun x hx => hx

theorem buildStrBase_subset
    (recurse : List String → String → List String × Except BuildErr Built)
    (built1 : List String) (stype : String) (rconfig : CVal) (rawBase : CVal)
    (hrec : ∀ b nm, b ⊆ (recurse b nm).1) :
    built1 ⊆ (buildStrBase recurse built1 stype rconfig rawBase).1 := by
  unfold buildStrBase
  split
  · rename_i rawName
    split
    · rename_i built2 e h2
      have := hrec built1 rawName
      rw [h2] at this
      exact this
    · rename_i built2 child h2
      have := hrec built1 rawName
      rw [h2] at this
      exact this
  · exact fun x hx => hx

theorem buildBody_subset (cfg : FactoryConfig) (env : Env)
    (recurse : List String → String → List String × Except BuildErr Built)
    (built1 : List String) (name : String)
    (hrec : ∀ b nm, b ⊆ (recurse b nm).1) :
    built1 ⊆ (buildBody cfg env recurse built1 name).1 := by
  unfold buildBody
  split
  · exact fun x hx => hx
  · split
    · exact fun x hx => hx
    · split
      · exact fun x hx => hx
      · split
        · exact fun x hx => hx
        · split
          · exact fun x hx => hx
          · split
            · exact buildDictBase_subset recurse built1 _ _ _ hrec
            · exact buildListBase_subset recurse built1 _ _ _ hrec
            · exact buildStrBase_subset recurse built1 _ _ _ hrec
            · exact fun x hx => hx

theorem buildName_subset (cfg : FactoryConfig) (env : Env) :
    ∀ (fuel : Nat) (built : List String) (name : String),
      built ⊆ (buildName cfg env fuel built name).1 := by
  intro fuel
  induction fuel with
  | zero => intro built name; exact fun x hx => hx
  | succ n ih =>
    intro built name
    simp only [buildName]
    split
    · exact fun x hx => hx
    · exact fun x hx =>
        buildBody_subset cfg env (buildName cfg env n) (name :: built) name
          (fun b nm => ih b nm) (List.mem_cons_of_mem _ hx)

/-- How many configured store names are not yet in `built_stores`: the
bound on the remaining recursion depth of `build`. -/
def missingCount (cfg : FactoryConfig) (built : List String) : Nat :=
  (cfg.stores.map Prod.fst).countP (fun n => decide (n ∉ built))

theorem countP_notmem_mono (l b b' : List String) (hsub : b ⊆ b') :
    l.countP (fun n => decide (n ∉ b')) ≤ l.countP (fun n => decide (n ∉ b)) := by
  induction l with
  | nil => simp
  | cons x t ih =>
    simp only [List.countP_cons]
    rcases Decidable.em (x ∈ b) with hx | hx
    · have e1 : decide (x ∉ b) = false := by simp [hx]
      have e2 : decide (x ∉ b') = false := by simp [hsub hx]
      rw [e1, e2]
      simpa using ih
    · have e1 : (if decide (x ∉ b) = true then (1 : Nat) else 0) = 1 := by simp [hx]
      rw [e1]
      have h2 := ih
      have hif : (if decide (x ∉ b') = true then (1 : Nat) else 0) ≤ 1 := by
        split_ifs <;> omega
      omega

theorem missingCount_mono (cfg : FactoryConfig) (b b' : List String) (h : b ⊆ b') :
    missingCount cfg b' ≤ missingCount cfg b :=
  countP_notmem_mono (cfg.stores.map Prod.fst) b b' h

theorem countP_insert_lt (l : List String) (name : String) (built : List String)
    (hmem : name ∈ l) (hnb : name ∉ built) :
    l.countP (fun n => decide (n ∉ name :: built)) <
      l.countP (fun n => decide (n ∉ built)) := by
  induction l with
  | nil => cases hmem
  | cons x t ih =>
    simp only [List.countP_cons]
    rcases List.mem_cons.mp hmem with heq | hmt
    · subst heq
      have e1 : (if decide (name ∉ name :: built) = true then (1 : Nat) else 0) = 0 := by
        simp
      have e2 : (if decide (name ∉ built) = true then (1 : Nat) else 0) = 1 := by
        simp [hnb]
      rw [e1, e2]
      have hmono := countP_notmem_mono t built (name :: built)
        (fun y hy => List.mem_cons_of_mem _ hy)
      omega
    · have hih := ih hmt
      have hhead : (if decide (x ∉ name :: built) = true then (1 : Nat) else 0) ≤
          (if decide (x ∉ built) = true then (1 : Nat) else 0) := by
        split_ifs with g1 g2
        · omega
        · exact absurd (List.mem_cons_of_mem _ (not_not.mp (by simpa using g2)))
            (by simpa using g1)
        · omega
        · omega
      omega

theorem missingCount_insert_lt (cfg : FactoryConfig) (name : String) (built : List String)
    (hmem : name ∈ cfg.stores.map Prod.fst) (hnb : name ∉ built) :
    missingCount cfg (name :: built) < missingCount cfg built :=
  countP_insert_lt (cfg.stores.map Prod.fst) name built hmem hnb

theorem missingCount_le (cfg : FactoryConfig) (built : List String) :
    missingCount cfg built ≤ cfg.stores.length := by
  unfold missingCount
  have h1 : (cfg.stores.map Prod.fst).countP (fun n => decide (n ∉ built)) ≤
      (cfg.stores.map Prod.fst).length := List.countP_le_length _
  simpa using h1

mutual

theorem resolveValues_nf (env : Env) : ∀ v : CVal, resolveValues env v ≠ .error .outOfFuel
  | .str s => by
    simp only [resolveValues]
    unfold resolveString
    rcases hp : parseEnvRef s with _ | ⟨vn, dflt⟩ <;> simp only [hp]
    · simp
    · rcases he : env vn with _ | v2 <;> simp only [he]
      · rcases dflt with _ | d <;> simp
      · simp
  | .other n => by simp [resolveValues]
  | .vlist l => by
    have hl := resolveCList_nf env l
    simp only [resolveValues]
    rcases hr : resolveCList env l with e2 | l2 <;> rw [hr] at hl
    · intro h
      simp only [Except.map] at h
      injection h with h
      exact hl (by rw [h])
    · intro h
      simp only [Except.map] at h
      cases h
  | .vdict d => by
    have hd := resolveCDict_nf env d
    simp only [resolveValues]
    rcases hr : resolveCDict env d with e2 | d2 <;> rw [hr] at hd
    · intro h
      simp only [Except.map] at h
      injection h with h
      exact hd (by rw [h])
    · intro h
      simp only [Except.map] at h
      cases h

theorem resolveCList_nf (env : Env) : ∀ l : List CVal,
    resolveCList env l ≠ .error .outOfFuel
  | [] => by simp [resolveCList]
  | v :: t => by
    have hv := resolveValues_nf env v
    have ht := resolveCList_nf env t
    simp only [resolveCList]
    rcases h1 : resolveValues env v with e1 | v1 <;> rw [h1] at hv
    · intro h
      injection h with h
      exact hv (by rw [h])
    · rcases h2 : resolveCList env t with e2 | t1 <;> rw [h2] at ht
      · intro h
        injection h with h
        exact ht (by rw [h])
      · intro h
        cases h

theorem resolveCDict_nf (env : Env) : ∀ d : List (String × CVal),
    resolveCDict env d ≠ .error .outOfFuel
  | [] => by simp [resolveCDict]
  | (k, v) :: t => by
    have hv := resolveValues_nf env v
    have ht := resolveCDict_nf env t
    simp only [resolveCDict]
    rcases h1 : resolveValues env v with e1 | v1 <;> rw [h1] at hv
    · intro h
      injection h with h
      exact hv (by rw [h])
    · rcases h2 : resolveCDict env t with e2 | t1 <;> rw [h2] at ht
      · intro h
        injection h with h
        exact ht (by rw [h])
      · intro h
        cases h

end

theorem buildList_nf (cfg : FactoryConfig) (n : Nat)
    (f : List String → String → List String × Except BuildErr Built)
    (hsub : ∀ b nm, b ⊆ (f b nm).1)
    (hnf : ∀ b nm, missingCount cfg b < n → (f b nm).2 ≠ .error .outOfFuel) :
    ∀ (l : List CVal) (b : List String), missingCount cfg b < n →
      (buildList f b l).2 ≠ .error .outOfFuel := by
  intro l
  induction l with
  | nil => intro b hb; simp [buildList]
  | cons v t ih =>
    intro b hb
    cases v with
    | str nm =>
      simp only [buildList]
      split
      · rename_i b' e h1
        have := hnf b nm hb
        rw [h1] at this
        simpa using this
      · rename_i b' bb h1
        have hb' : b ⊆ b' := by have := hsub b nm; rw [h1] at this; exact this
        have hb'n : missingCount cfg b' < n :=
          lt_of_le_of_lt (missingCount_mono cfg b b' hb') hb
        split
        · rename_i b'' e h2
          have := ih b' hb'n
          rw [h2] at this
          simpa using this
        · simp
    | other m => simp [buildList]
    | vlist l2 => simp [buildList]
    | vdict d2 => simp [buildList]

theorem buildDictBase_nf (cfg : FactoryConfig) (n : Nat)
    (recurse : List String → String → List String × Except BuildErr Built)
    (built1 : List String) (stype : String) (rconfig : CVal) (d : List (String × CVal))
    (hsub : ∀ b nm, b ⊆ (recurse b nm).1)
    (hnf : ∀ b nm, missingCount cfg b < n → (recurse b nm).2 ≠ .error .outOfFuel)
    (hb1 : missingCount cfg built1 < n) :
    (buildDictBase recurse built1 stype rconfig d).2 ≠ .error .outOfFuel := by
  unfold buildDictBase
  split
  · split
    · simp
    · rename_i mname heq
      split
      · rename_i built2 e h2
        have := hnf built1 mname hb1
        rw [h2] at this
        simpa using this
      · rename_i built2 mb h2
        have hsub2 : built1 ⊆ built2 := by
          have := hsub built1 mname; rw [h2] at this; exact this
        have hb2 : missingCount cfg built2 < n :=
          lt_of_le_of_lt (missingCount_mono cfg built1 built2 hsub2) hb1
        split
        · simp
        · rename_i cname heq2
          split
          · rename_i built3 e h3
            have := hnf built2 cname hb2
            rw [h3] at this
            simpa using this
          · simp
        · simp
    · simp
  · simp

theorem buildListBase_nf (cfg : FactoryConfig) (n : Nat)
    (recurse : List String → String → List String × Except BuildErr Built)
    (built1 : List String) (stype : String) (rconfig : CVal) (l : List CVal)
    (hsub : ∀ b nm, b ⊆ (recurse b nm).1)
    (hnf : ∀ b nm, missingCount cfg b < n → (recurse b nm).2 ≠ .error .outOfFuel)
    (hb1 : missingCount cfg built1 < n) :
    (buildListBase recurse built1 stype rconfig l).2 ≠ .error .outOfFuel := by
  unfold buildListBase
  split
  · split
    · rename_i built2 e h2
      have := buildList_nf cfg n recurse hsub hnf l built1 hb1
      rw [h2] at this
      simpa using this
    · simp
  · simp

theorem buildStrBase_nf (cfg : FactoryConfig) (n : Nat)
    (recurse : List String → String → List String × Except BuildErr Built)
    (built1 : List String) (stype : String) (rconfig : CVal) (rawBase : CVal)
    (hsub : ∀ b nm, b ⊆ (recurse b nm).1)
    (hnf : ∀ b nm, missingCount cfg b < n → (recurse b nm).2 ≠ .error .outOfFuel)
    (hb1 : missingCount cfg built1 < n) :
    (buildStrBase recurse built1 stype rconfig rawBase).2 ≠ .error .outOfFuel := by
  unfold buildStrBase
  split
  · rename_i rawName
    split
    · rename_i built2 e h2
      have := hnf built1 rawName hb1
      rw [h2] at this
      simpa using this
    · simp
  · simp

theorem buildBody_nf (cfg : FactoryConfig) (env : Env) (n : Nat)
    (recurse : List String → String → List String × Except BuildErr Built)
    (built1 : List String) (name : String)
    (hsub : ∀ b nm, b ⊆ (recurse b nm).1)
    (hnf : ∀ b nm, missingCount cfg b < n → (recurse b nm).2 ≠ .error .outOfFuel)
    (hb1 : ∀ sdef, lookupStore cfg name = some sdef → missingCount cfg built1 < n) :
    (buildBody cfg env recurse built1 name).2 ≠ .error .outOfFuel := by
  unfold buildBody
  split
  · simp
  · rename_i sdef hlk
    have hb : missingCount cfg built1 < n := hb1 sdef hlk
    split
    · simp
    · split
      · rename_i e h1
        have := resolveValues_nf env sdef.config
        rw [h1] at this
        simpa using this
      · rename_i rconfig h1
        split
        · rename_i e h2
          have := resolveValues_nf env sdef.base
          rw [h2] at this
          simpa using this
        · rename_i rbase h2
          split
          · simp
          · split
            · exact buildDictBase_nf cfg n recurse built1 _ _ _ hsub hnf hb
            · exact buildListBase_nf cfg n recurse built1 _ _ _ hsub hnf hb
            · exact buildStrBase_nf cfg n recurse built1 _ _ _ hsub hnf hb
            · simp

theorem buildName_no_fuel_error (cfg : FactoryConfig) (env : Env) :
    ∀ (fuel : Nat) (built : List String) (name : String),
      missingCount cfg built < fuel →
      (buildName cfg env fuel built name).2 ≠ .error .outOfFuel := by
  intro fuel
  induction fuel with
  | zero => intro built name h; exact absurd h (Nat.not_lt_zero _)
  | succ m ih =>
    intro built name hb
    simp only [buildName]
    split
    · simp
    · rename_i hnotin
      refine buildBody_nf cfg env m (buildName cfg env m) (name :: built) name
        (fun b nm => buildName_subset cfg env m b nm) (fun b nm hbn => ih b nm hbn) ?_
      intro sdef hlk
      have hmem : name ∈ cfg.stores.map Prod.fst := lookup_some_mem _ name sdef hlk
      have := missingCount_insert_lt cfg name built hmem hnotin
      omega

/-- One step of a chain of string-base references: `a`'s definition
exists, has a registered type, a resolvable config, and lists the plain
name `b` (not an environment reference) as its base. -/
def ChainsTo (cfg : FactoryConfig) (env : Env) (a b : String) : Prop :=
  ∃ sdef rc, lookupStore cfg a = some sdef ∧ sdef.type ∈ KNOWN_STORES ∧
    resolveValues env sdef.config = .ok rc ∧ sdef.base = .str b ∧ parseEnvRef b = none

/-- A chain of base references visiting exactly the names in `p` (starting
at its head) and ending with a base reference to `X`. -/
inductive ChainPath (cfg : FactoryConfig) (env : Env) : String → List String → String → Prop
  | single {a X : String} : ChainsTo cfg env a X → ChainPath cfg env a [a] X
  | cons {a b X : String} {p : List String} :
      ChainsTo cfg env a b → ChainPath cfg env b p X → ChainPath cfg env a (a :: p) X

/-- A chain step turns `build a` into the propagated outcome of building
`a`'s base. -/
theorem buildName_chain_step (cfg : FactoryConfig) (env : Env) (fuel : Nat)
    (built : List String) (a b : String) (hc : ChainsTo cfg env a b)
    (hnotin : a ∉ built) (e : BuildErr)
    (hrec : (buildName cfg env fuel (a :: built) b).2 = .error e) :
    (buildName cfg env (fuel + 1) built a).2 = .error e := by
  obtain ⟨sdef, rc, hlk, hty, hrc, hbase, href⟩ := hc
  simp only [buildName]
  rw [if_neg hnotin]
  unfold buildBody
  simp only [hlk]
  rw [if_neg (not_not_intro hty)]
  simp only [hrc]
  rw [hbase]
  simp only [resolveValues]
  unfold resolveString
  simp only [href]
  rw [if_neg (by intro hcontra; cases hcontra)]
  unfold buildStrBase
  dsimp only
  rcases h2 : buildName cfg env fuel (a :: built) b with ⟨built2, r2⟩
  rw [h2] at hrec
  have hr2 : r2 = .error e := hrec
  subst hr2
  rfl

theorem chainPath_mem (cfg : FactoryConfig) (env : Env) {a : String} {p : List String}
    {X : String} (h : ChainPath cfg env a p X) :
    ∀ n ∈ p, n ∈ cfg.stores.map Prod.fst := by
  induction h with
  | single hc =>
    intro n hn
    simp only [List.mem_singleton] at hn
    subst hn
    obtain ⟨sdef, _, hlk, _⟩ := hc
    exact lookup_some_mem _ _ _ hlk
  | cons hc hcp ih =>
    intro n hn
    rcases List.mem_cons.mp hn with rfl | hn
    · obtain ⟨sdef, _, hlk, _⟩ := hc
      exact lookup_some_mem _ _ _ hlk
    · exact ih n hn

theorem nodup_subset_length (q names : List String) (hnd : q.Nodup)
    (hsub : ∀ x ∈ q, x ∈ names) : q.length ≤ names.length := by
  have h1 : q.toFinset.card = q.length := List.toFinset_card_of_nodup hnd
  have h2 : q.toFinset ⊆ names.toFinset := fun x hx =>
    List.mem_toFinset.mpr (hsub x (List.mem_toFinset.mp hx))
  have h3 := Finset.card_le_card h2
  have h4 := List.toFinset_card_le (l := names)
  omega

/-- Re-entering a name already in `built_stores` along a chain of base
references raises the recursion `ConfigError` naming the re-entered
store. -/
theorem buildName_cycle_error (cfg : FactoryConfig) (env : Env) {p : List String}
    {a X : String} (hcp : ChainPath cfg env a p X) :
    ∀ (fuel : Nat) (built : List String), X ∈ built → (∀ n ∈ p, n ∉ built) →
      p.Nodup → p.length < fuel →
      (buildName cfg env fuel built a).2 = .error (.recursiveDef X) := by
  induction hcp with
  | single hc =>
    intro fuel built hX hp _ hlen
    simp only [List.length_singleton] at hlen
    cases fuel with
    | zero => omega
    | succ f =>
      apply buildName_chain_step cfg env f built _ _ hc (hp _ (by simp))
      cases f with
      | zero => omega
      | succ f2 =>
        simp only [buildName]
        rw [if_pos (List.mem_cons_of_mem _ hX)]
  | cons hc hcp2 ih =>
    intro fuel built hX hp hnd hlen
    simp only [List.length_cons] at hlen
    rcases List.nodup_cons.mp hnd with ⟨hnotp, hndp⟩
    cases fuel with
    | zero => omega
    | succ f =>
      apply buildName_chain_step cfg env f built _ _ hc (hp _ (by simp))
      apply ih f _ (List.mem_cons_of_mem _ hX) ?_ hndp (by omega)
      intro n hn
      intro hcontra
      rcases List.mem_cons.mp hcontra with rfl | hcontra
      · exact hnotp hn
      · exact hp n (by simp [hn]) hcontra

/-- C5: cycle detection. (a) Termination: `build` (at the fuel bound of
`buildCall`, which always suffices) never exhausts its recursion budget,
for any configuration, environment, prior `built_stores` state and name.
(b) For every configuration in which `X` reaches itself through a chain
of (distinct) base references, building `X` fails with the recursion
error; that error is a `ConfigError` and its message names `X`. -/
theorem c5_cycle_detection :
    (∀ (cfg : FactoryConfig) (env : Env) (built : List String) (name : String),
        (buildCall cfg env built name).2 ≠ .error .outOfFuel) ∧
    (∀ (cfg : FactoryConfig) (env : Env) (X : String) (q : List String),
        ChainPath cfg env X q X → q.Nodup →
        (buildCall cfg env [] X).2 = .error (.recursiveDef X) ∧
        isConfigError (.recursiveDef X) = true ∧
        ∃ pre post, buildErrMsg (.recursiveDef X) = pre ++ X ++ post) := by
  constructor
  · intro cfg env built name
    apply buildName_no_fuel_error
    have := missingCount_le cfg built
    omega
  · intro cfg env X q hcp hnd
    refine ⟨?_, rfl, "Recursive store definition found -- ",
      " mentioned multiple times", rfl⟩
    unfold buildCall
    cases hcp with
    | single hc =>
      have hmem : X ∈ cfg.stores.map Prod.fst := by
        obtain ⟨sdef, _, hlk, _⟩ := hc
        exact lookup_some_mem _ _ _ hlk
      have hpos : 1 ≤ cfg.stores.length := by
        have hne := List.ne_nil_of_mem hmem
        have := List.length_map cfg.stores Prod.fst
        cases hcs : cfg.stores.map Prod.fst with
        | nil => exact absurd hcs hne
        | cons hd tl =>
          rw [hcs] at this
          simp only [List.length_cons] at this
          omega
      apply buildName_chain_step cfg env cfg.stores.length [] X X hc (by simp)
      obtain ⟨f, hf⟩ : ∃ f, cfg.stores.length = f + 1 := ⟨cfg.stores.length - 1, by omega⟩
      rw [hf]
      simp only [buildName]
      rw [if_pos (by simp)]
    | cons hc hcp2 =>
      rename_i b p
      rcases List.nodup_cons.mp hnd with ⟨hXp, hndp⟩
      have hsub : ∀ n ∈ X :: p, n ∈ cfg.stores.map Prod.fst :=
        chainPath_mem cfg env (ChainPath.cons hc hcp2)
      have hlen : (X :: p).length ≤ (cfg.stores.map Prod.fst).length :=
        nodup_subset_length _ _ hnd hsub
      rw [List.length_map, List.length_cons] at hlen
      apply buildName_chain_step cfg env cfg.stores.length [] X b hc (by simp)
      apply buildName_cycle_error cfg env hcp2 cfg.stores.length [X] (by simp)
        ?_ hndp (by omega)
      intro n hnp
      simp only [List.mem_singleton]
      intro hcontra
      subst hcontra
      exact hXp hnp

def c5cfg : FactoryConfig :=
  ⟨[("X", ⟨"IdentityStore", .vdict [], .str "X"⟩)], some "X"⟩

def c5env : Env := fun _ => none

/-- Witness for C5: the one-store configuration whose `X` lists itself as
its base triggers the recursion error naming `X`, and no call runs out of
fuel on it. -/
theorem c5_cycle_detection_witness :
    (buildCall c5cfg c5env [] "X").2 ≠ .error .outOfFuel ∧
    (buildCall c5cfg c5env [] "X").2 = .error (.recursiveDef "X") ∧
    isConfigError (.recursiveDef "X") = true ∧
    ∃ pre post, buildErrMsg (.recursiveDef "X") = pre ++ "X" ++ post := by
  have hchain : ChainPath c5cfg c5env "X" ["X"] "X" :=
    ChainPath.single ⟨⟨"IdentityStore", .vdict [], .str "X"⟩, .vdict [],
      by decide, by decide, by decide, rfl, by decide⟩
  have h := c5_cycle_detection
  exact ⟨h.1 c5cfg c5env [] "X", h.2 c5cfg c5env "X" ["X"] hchain (by decide)⟩

def c4cfg : FactoryConfig :=
  ⟨[("X", ⟨"DictStore", .vdict [], .vdict []⟩)], some "X"⟩

/-- C4: the cycle check is keyed on the factory-instance `built_stores`
dict, which `build` never clears. On a one-store acyclic configuration the
first `build("X")` succeeds, but a second independent `build("X")` on the
same factory (its `built_stores` now holding `"X"`) fails with the
recursion error — contradicting the claim that the check is scoped to a
single top-level resolution. -/
theorem c4_second_build_fails :
    (buildCall c4cfg c5env [] "X").2 = .ok (.node "DictStore" (.vdict []) []) ∧
    (buildCall c4cfg c5env [] "X").1 = ["X"] ∧
    (buildCall c4cfg c5env ["X"] "X").2 = .error (.recursiveDef "X") := by
  refine ⟨?_, ?_, ?_⟩ <;> decide

/-- C6: environment interpolation. With `FOO` set, the config string
"$\x7bFOO\x7d" resolves to its value; with `MISSING` unset,
"$\x7bMISSING:-fallback\x7d" resolves to the fallback while
"$\x7bMISSING\x7d" fails with a `ConfigError` whose message mentions
`MISSING`; and a variable set to the empty string is treated as present:
"$\x7bEMPTY:-fallback\x7d" resolves to "", not the default. -/
theorem c6_env_interpolation (env : Env) :
    (∀ s, env "FOO" = some s →
      resolveValues env (.str "$\x7bFOO\x7d") = .ok (.str s)) ∧
    (env "MISSING" = none →
      resolveValues env (.str "$\x7bMISSING:-fallback\x7d") = .ok (.str "fallback")) ∧
    (env "MISSING" = none →
      resolveValues env (.str "$\x7bMISSING\x7d") = .error (.envMissing "MISSING") ∧
      isConfigError (.envMissing "MISSING") = true ∧
      ∃ pre post, buildErrMsg (.envMissing "MISSING") = pre ++ "MISSING" ++ post) ∧
    (env "EMPTY" = some "" →
      resolveValues env (.str "$\x7bEMPTY:-fallback\x7d") = .ok (.str "")) := by
  refine ⟨?_, ?_, ?_, ?_⟩
  · intro s h
    have hp : parseEnvRef "$\x7bFOO\x7d" = some ("FOO", none) := by decide
    simp only [resolveValues, resolveString, hp, h]
  · intro h
    have hp : parseEnvRef "$\x7bMISSING:-fallback\x7d" = some ("MISSING", some "fallback") := by
      decide
    simp only [resolveValues, resolveString, hp, h]
  · intro h
    have hp : parseEnvRef "$\x7bMISSING\x7d" = some ("MISSING", none) := by decide
    refine ⟨?_, rfl, "Environment variable '", "' not found. Please set MISSING or provide a default value using $\x7bMISSING:-default\x7d", rfl⟩
    simp only [resolveValues, resolveString, hp, h]
  · intro h
    have hp : parseEnvRef "$\x7bEMPTY:-fallback\x7d" = some ("EMPTY", some "fallback") := by
      decide
    simp only [resolveValues, resolveString, hp, h]

def c6env : Env := fun v =>
  if v = "FOO" then some "bar" else if v = "EMPTY" then some "" else none

/-- Witness for C6 at a concrete environment holding FOO=bar and
EMPTY="" with MISSING unset. -/
theorem c6_env_interpolation_witness :
    resolveValues c6env (.str "$\x7bFOO\x7d") = .ok (.str "bar") ∧
    resolveValues c6env (.str "$\x7bMISSING:-fallback\x7d") = .ok (.str "fallback") ∧
    resolveValues c6env (.str "$\x7bMISSING\x7d") = .error (.envMissing "MISSING") ∧
    resolveValues c6env (.str "$\x7bEMPTY:-fallback\x7d") = .ok (.str "") := by
  have h := c6_env_interpolation c6env
  exact ⟨h.1 "bar" rfl, h.2.1 rfl, (h.2.2.1 rfl).1, h.2.2.2 rfl⟩

def c9cfg : FactoryConfig :=
  ⟨[("X", ⟨"NoSuchStore", .vdict [], .vdict []⟩)], some "X"⟩

/-- Counterexample to C9: building a definition whose type string is not
registered fails with a raw dict-lookup `KeyError` (from
`self.STORES[store_type]`), which is not the `ConfigError` kind. -/
theorem c9_config_kind_counterexample :
    (buildCall c9cfg c5env [] "X").2 = .error (.keyError "NoSuchStore") ∧
    isConfigError (.keyError "NoSuchStore") = false := by
  refine ⟨?_, ?_⟩ <;> decide

/-- C9 (amended): a definition whose type string is unregistered makes
`build` fail with `KeyError` carrying the type string — not with the
`ConfigError` kind — while cyclic references, missing environment
variables without default and wrong base shapes do raise `ConfigError`. -/
theorem c9_unknown_type_amended (cfg : FactoryConfig) (env : Env)
    (built : List String) (name : String) (sdef : StoreDef)
    (hnb : name ∉ built) (hlk : lookupStore cfg name = some sdef)
    (hty : sdef.type ∉ KNOWN_STORES) :
    (buildCall cfg env built name).2 = .error (.keyError sdef.type) ∧
    isConfigError (.keyError sdef.type) = false ∧
    (∀ n, isConfigError (.recursiveDef n) = true) ∧
    (∀ v, isConfigError (.envMissing v) = true) ∧
    (∀ t k, isConfigError (.invalidBase t k) = true) := by
  refine ⟨?_, rfl, fun _ => rfl, fun _ => rfl, fun _ _ => rfl⟩
  unfold buildCall
  simp only [buildName]
  rw [if_neg hnb]
  unfold buildBody
  simp only [hlk]
  rw [if_pos hty]

/-- Witness for C9's amended statement at the concrete unregistered type
"UnknownKind". -/
theorem c9_unknown_type_amended_witness :
    (buildCall ⟨[("Y", ⟨"UnknownKind", .vdict [], .vdict []⟩)], some "Y"⟩ c5env [] "Y").2 =
      .error (.keyError "UnknownKind") ∧
    isConfigError (.keyError "UnknownKind") = false := by
  have h := c9_unknown_type_amended ⟨[("Y", ⟨"UnknownKind", .vdict [], .vdict []⟩)], some "Y"⟩
    c5env [] "Y" ⟨"UnknownKind", .vdict [], .vdict []⟩ (by simp) (by decide) (by decide)
  exact ⟨h.1, h.2.1⟩
